import Mathlib

/-! MastermindMachine: the guess-deduction engine of `src/main.cpp`.

The linked list of `Guess` nodes that hangs off the dummy head node is a
`List Guess` (the nodes after the head, in link order).  A pointer to a node
is an `Option Guess` (`none` is the null pointer).  The two nodes that
`main` binds its reference `guess` to (line 62) are each the first node of
the list with their code, so the model identifies the node referred to by
that property.  `delete` unlinks the node from the list and ends its
lifetime: `GuessRef` keeps track of whether the object behind the reference
`guess` of `deduceByRedAndWhite` is still alive, and a read of the code of a
freed node yields a code that is a parameter of the model (`stale`), since
the program does not determine it.  `unsigned short` values are natural
numbers; where the program does arithmetic on them that can wrap (`++hits`,
`++turn_no`, `i++`) or stores an `int` in them (`red`, `white`) the model
reduces modulo `65536`.
-/

namespace Mastermind

/-! ## Data model -/

/-- A list node with its `std::array<unsigned short, 4> code`.  The `next`
pointer is the position of the node in the `List Guess` that holds it. -/
structure Guess where
  code : List Nat
  size_eq : code.length = 4
deriving DecidableEq

/-- Array read `a[i]` of an `unsigned short` array. -/
def rd (a : List Nat) (i : Nat) : Nat := a.getD i 0

/-- Array read `a[i]` of a `bool` array. -/
def rdB (a : List Bool) (i : Nat) : Bool := a.getD i false

/-- A `std::array<unsigned short, 2>` entry of `PEG_COMBOS`: `(r[0], r[1])`. -/
abbrev Combo := Nat × Nat

/-! ## Feedback simulator -/

/-- Function `simulateRedPegs` (lines 94-103): count the positions `i < 4` at
which the two codes agree. -/
def simulateRedPegs (guess possible_solution : Guess) : Nat :=
  (List.range 4).foldl
    (fun pegs i =>
      if rd guess.code i = rd possible_solution.code i then pegs + 1 else pegs)
    0

/-- First loop of `simulateWhitePegs` (lines 116-118): starting from the two
all-false exclusion arrays, `exclusions_g[i] = exclusions_ps[i] = true` at
every position where the codes agree. -/
def excludeReds (g ps : List Nat) : List Bool × List Bool :=
  (List.range 4).foldl
    (fun ex i =>
      if rd g i = rd ps i then (ex.1.set i true, ex.2.set i true) else ex)
    ([false, false, false, false], [false, false, false, false])

/-- Inner loop of `simulateWhitePegs` (lines 122-129): the first `j < 4` with
`!exclusions_ps[j] && guess.code[i] == possible_solution.code[j]`, at which
the loop body runs once and breaks. -/
def firstPair (gi : Nat) (ps : List Nat) (exclusions_ps : List Bool) : Option Nat :=
  (List.range 4).find? (fun j => !rdB exclusions_ps j && gi == rd ps j)

/-- State of the second loop of `simulateWhitePegs`. -/
structure WhiteState where
  exclusions_g : List Bool
  exclusions_ps : List Bool
  pegs : Nat

/-- One iteration (for a given `i`) of the outer loop at lines 120-129. -/
def whiteStep (g ps : List Nat) (st : WhiteState) (i : Nat) : WhiteState :=
  if !rdB st.exclusions_g i then
    match firstPair (rd g i) ps st.exclusions_ps with
    | some j =>
      { exclusions_g := st.exclusions_g.set i true
        exclusions_ps := st.exclusions_ps.set j true
        pegs := st.pegs + 1 }
    | none => st
  else st

/-- Function `simulateWhitePegs` (lines 106-132). -/
def simulateWhitePegs (guess possible_solution : Guess) : Nat :=
  let ex := excludeReds guess.code possible_solution.code
  ((List.range 4).foldl (whiteStep guess.code possible_solution.code)
    { exclusions_g := ex.1, exclusions_ps := ex.2, pegs := 0 }).pegs

/-! ## Code space -/

/-- Global `PEG_COMBOS` (line 30): an array of 15 pairs in static storage,
zero-initialised before `main` runs. -/
def PEG_COMBOS : List Combo := List.replicate 15 (0, 0)

/-- State of the nested loops of `initPegCombos`: the function's own array
`combos`, the write index `i`, and (ghost) the indices written so far and
whether all of them were below 15. -/
structure PegLoop where
  combos : List Combo
  i : Nat
  writes : List Nat
  inBounds : Bool

/-- Body of `initPegCombos` (lines 87-90) run on its parameter `combos`:
`for r in 0..4, for w in 0..4-r: combos[i++] = {r, w}`. -/
def initPegCombosBody (combos : List Combo) : PegLoop :=
  (List.range 5).foldl
    (fun st r =>
      (List.range (4 - r + 1)).foldl
        (fun st w =>
          { combos := st.combos.set st.i (r, w)
            i := (st.i + 1) % 65536
            writes := st.writes ++ [st.i]
            inBounds := st.inBounds && decide (st.i < 15) })
        st)
    { combos := combos, i := 0, writes := [], inBounds := true }

/-- The call `initPegCombos(PEG_COMBOS)` seen from the caller.  The parameter
is declared `std::array<std::array<unsigned short, 2>, 15> combos`, by value
(lines 15 and 85): the loops fill the callee's copy, which is discarded on
return, and the argument keeps its contents. -/
def initPegCombos (argument : List Combo) : List Combo :=
  let _callee := initPegCombosBody argument
  argument

/-- Recursive overload `generatePasswords(passwords, branch, target_size)`
(lines 136-148); the vector `passwords` is threaded through the calls. -/
def generatePasswordsRec (passwords : List (List Nat)) (branch : List Nat) (target_size : Nat) :
    List (List Nat) :=
  if branch.length ≥ target_size then passwords ++ [branch]
  else
    (List.range 6).foldl
      (fun passwords i => generatePasswordsRec passwords (branch ++ [i]) target_size)
      passwords
termination_by target_size - branch.length
decreasing_by
  simp only [List.length_append, List.length_singleton]
  omega

/-- Front-end overload `generatePasswords()` (lines 152-160). -/
def generatePasswords : List (List Nat) := generatePasswordsRec [] [] 4

/-- The node `new Guess {{p[0], p[1], p[2], p[3]}, nullptr}` of line 170. -/
def newGuess (p : List Nat) : Guess := ⟨[rd p 0, rd p 1, rd p 2, rd p 3], rfl⟩

/-- Function `prepareGuesses` (lines 163-180).  The cursor `i` starts at the
head node; the fold state is the chain from `head.next` up to the cursor and
the chain after the cursor.  Each password overwrites `i->next` with a fresh
node whose `next` is null and moves the cursor onto it. -/
def prepareGuesses (head : List Guess) (passwords : List (List Nat)) : List Guess :=
  let st := passwords.foldl
    (fun (st : List Guess × List Guess) p => (st.1 ++ [newGuess p], []))
    ([], head)
  st.1 ++ st.2

/-! ## Deduction step -/

/-- Function `deleteGuess` (lines 183-190) on the chain that follows
`predecessor`: unlink its first node, which `delete` then frees.  On an empty
chain `deletee` is null; the model leaves the chain empty there
(`deduceByRedAndWhite` never calls it so). -/
def deleteGuess (afterPredecessor : List Guess) : List Guess :=
  match afterPredecessor with
  | [] => []
  | _ :: rest => rest

/-- State of the object that the parameter `const Guess& guess` of
`deduceByRedAndWhite` refers to while the list is scanned. -/
inductive GuessRef where
  /-- An object that is not a node of the scanned chain: the scan cannot free
  it. -/
  | outside
  /-- The first node of the scanned chain that holds the code of the guess,
  still allocated.  Both pointers that `main` turns into `guess` (lines 53-55
  and `maximinningGuess`) point at the first node with their code. -/
  | inList
  /-- A node that `deleteGuess` has freed (line 189): what a read of its code
  yields is not defined by the program. -/
  | freed
deriving DecidableEq

/-- What a scan of `deduceByRedAndWhite` leaves: the chain after `possibilities`,
the state of the object `guess` refers to, and (ghost) the number of
iterations that read `guess.code` from a freed node. -/
structure Scan where
  list : List Guess
  ref : GuessRef
  freedReads : Nat
deriving DecidableEq

/-- Function `deduceByRedAndWhite` (lines 193-205) on the chain that follows
`pre_i`; the nodes before `pre_i` have passed the test and stay.  `guess` is a
reference, and every iteration reads `guess.code` through it (line 199): the
code `guess` while the object is alive, and `stale`, whatever the freed block
then holds, once `deleteGuess` has freed the node the reference points at
(line 189; that node is the one deleted while `ref` is `inList` and the
deleted node holds the code of the guess).  A node referred to that passes
the test is behind `pre_i` from then on, where this scan cannot free it: the
rest of the scan treats it as an object outside the chain, and it is still a
node of the list when the scan ends. -/
def deduceByRedAndWhite (stale guess : Guess) (red white : Nat) :
    GuessRef → List Guess → Scan
  | ref, [] => { list := [], ref := ref, freedReads := 0 }
  | ref, next :: rest =>
    let seen := if ref = GuessRef.freed then stale else guess
    let reads := if ref = GuessRef.freed then 1 else 0
    if simulateRedPegs seen next ≠ red ∨ simulateWhitePegs seen next ≠ white then
      let after := deduceByRedAndWhite stale guess red white
        (if ref = GuessRef.inList ∧ next = guess then GuessRef.freed else ref)
        (deleteGuess (next :: rest))
      { list := after.list, ref := after.ref, freedReads := after.freedReads + reads }
    else
      let after := deduceByRedAndWhite stale guess red white
        (if ref = GuessRef.inList ∧ next = guess then GuessRef.outside else ref) rest
      { list := next :: after.list,
        ref := if ref = GuessRef.inList ∧ next = guess then GuessRef.inList else after.ref,
        freedReads := after.freedReads + reads }

/-- A content that the code of a freed node can show.  An allocator that
threads its free list through the freed blocks writes a pointer over the first
eight bytes of the node, which are its code; with 48-bit addresses the upper
sixteen bits, the fourth symbol, are zero, and the other three are bits of an
address and no symbols of the Code Space. -/
def linkBits : Guess := ⟨[43690, 21845, 21845, 0], rfl⟩

/-! ## Guess selector -/

/-- Innermost loop of `maximinningGuess` (lines 233-238): the `unsigned short`
counter `hits` of the nodes `j` whose simulated answer to `i` differs from `r`. -/
def countHits (head : List Guess) (i : Guess) (r : Combo) : Nat :=
  head.foldl
    (fun hits j =>
      if simulateRedPegs i j ≠ r.1 ∨ simulateWhitePegs i j ≠ r.2 then (hits + 1) % 65536
      else hits)
    0

/-- Middle loop of `maximinningGuess` (lines 230-242): `min_hits` starts at
1296 and is lowered to every smaller `hits` over the entries of the table. -/
def minHits (combos : List Combo) (head : List Guess) (i : Guess) : Nat :=
  combos.foldl
    (fun min_hits r =>
      let hits := countHits head i r
      if hits < min_hits then hits else min_hits)
    1296

/-- Function `maximinningGuess` (lines 223-252), with the global table it
iterates as a parameter.  The fold state is `(maximin_hits,
maximinning_guess)`; the pointer starts at `head.next`, and `none` is the
null pointer, which the final `*maximinning_guess` dereferences. -/
def maximinningGuess (combos : List Combo) (head : List Guess) : Option Guess :=
  (head.foldl
    (fun (st : Nat × Option Guess) i =>
      let min_hits := minHits combos head i
      if min_hits > st.1 then (min_hits, some i) else st)
    (0, head.head?)).2

/-! ## Session loop of `main` -/

/-- Value of the macro `INT_MAX` of `<climits>` for a 32-bit `int`; it is the
default `maximum` of `intInput` (line 26). -/
def INT_MAX : Int := 2147483647

/-- Guard of `intInput` (line 263) for a number that was read: it is returned
unless `i < minimum || i > maximum`, in which case the user is asked again. -/
def intInputAccepts (minimum maximum i : Int) : Bool :=
  !(decide (i < minimum) || decide (i > maximum))

/-- Conversion of the `int` that `intInput` returns to the `unsigned short`
variables `red` and `white` (lines 45, 68, 73): reduction modulo `65536`. -/
def toUnsignedShort (i : Int) : Nat := (i % 65536).toNat

/-- What one pass through the body of the loop of `main` (lines 62-77) does. -/
inductive Turn where
  /-- Left by `break` at `red == 4` after printing `guess`. -/
  | solved (guess : Guess)
  /-- A null `Guess*` was dereferenced when forming the guess. -/
  | nullGuess
  /-- The number typed failed the guard of `intInput`, which answers
  "Invalid input; retry" and waits for another number. -/
  | askAgain (guess : Guess)
  /-- The pass reached line 77: the printed guess, the candidate list after
  line 75 and the turn counter after line 77. -/
  | next (guess : Guess) (head : List Guess) (turn_no : Nat)
deriving DecidableEq

/-- One pass through the body of the loop of `main` (lines 62-77).
`answer guess` holds the two numbers typed in reply to the printed guess;
`stale guess` is what the block of that node holds after it has been freed.
`guess` is bound to a node of the candidate list (line 62), and line 75 passes
that reference on. -/
def mainTurn (stale : Guess → Guess) (combos : List Combo) (answer : Guess → Int × Int)
    (ideal_first_guess : Option Guess) (head : List Guess) (turn_no : Nat) : Turn :=
  match (if turn_no = 1 then ideal_first_guess else maximinningGuess combos head) with
  | none => Turn.nullGuess
  | some guess =>
    if intInputAccepts 0 INT_MAX (answer guess).1 = false then Turn.askAgain guess
    else
      let red := toUnsignedShort (answer guess).1
      if red = 4 then Turn.solved guess
      else if intInputAccepts 0 INT_MAX (answer guess).2 = false then Turn.askAgain guess
      else
        let white := toUnsignedShort (answer guess).2
        Turn.next guess
          (deduceByRedAndWhite (stale guess) guess red white GuessRef.inList head).list
          ((turn_no + 1) % 65536)

/-- How a run of `main` ends. -/
inductive Session where
  /-- Left by `break` at `red == 4`; the guesses printed, in order. -/
  | done (tries : List Guess)
  /-- A null `Guess*` was dereferenced when forming the next guess. -/
  | nullGuess (tries : List Guess)
  /-- The program waits in `intInput` for another number after a rejected one. -/
  | askAgain (tries : List Guess)
  /-- The loop is still running after the given number of turns. -/
  | running (tries : List Guess)
  /-- The program did not get past line 57. -/
  | invalidDelete
deriving DecidableEq

/-- The `while (true)` loop of `main` (lines 59-78), for at most `turns`
iterations, from the candidate list `head` and the turn counter `turn_no`;
`tries` are the guesses printed so far. -/
def mainLoop (stale : Guess → Guess) (combos : List Combo) (answer : Guess → Int × Int)
    (ideal_first_guess : Option Guess) :
    Nat → List Guess → Nat → List Guess → Session
  | 0, _, _, tries => Session.running tries
  | turns + 1, head, turn_no, tries =>
    match mainTurn stale combos answer ideal_first_guess head turn_no with
    | Turn.nullGuess => Session.nullGuess tries
    | Turn.solved guess => Session.done (tries ++ [guess])
    | Turn.askAgain guess => Session.askAgain (tries ++ [guess])
    | Turn.next guess head2 turn_no2 =>
      mainLoop stale combos answer ideal_first_guess turns head2 turn_no2 (tries ++ [guess])

/-- Function `main` (lines 39-78) for at most `turns` iterations of its loop:
the peg table after `initPegCombos(PEG_COMBOS)`, the candidate list built
behind the dummy head, the search for the first node with code `{0,0,1,1}`,
line 57, then the loop.  Line 57 applies `delete` to the local array
`ideal_first_colors`, which no `new` created; the program does not define
what follows, and `deleteReturns` tells whether the call comes back (an
allocator that checks the pointer ends the process there). -/
def main (deleteReturns : Bool) (stale : Guess → Guess) (answer : Guess → Int × Int)
    (turns : Nat) : Session :=
  let combos := initPegCombos PEG_COMBOS
  let head := prepareGuesses [] generatePasswords
  let ideal_first_guess := head.find? (fun i => i.code = [0, 0, 1, 1])
  if deleteReturns then mainLoop stale combos answer ideal_first_guess turns head 1 []
  else Session.invalidDelete

/-- The numbers typed by an oracle that holds `secret` and scores every guess
with the feedback simulator. -/
def honest (secret : Guess) (guess : Guess) : Int × Int :=
  (Int.ofNat (simulateRedPegs guess secret), Int.ofNat (simulateWhitePegs guess secret))

/-- The candidate list with which `main` enters its loop. -/
def initialCandidates : List Guess := prepareGuesses [] generatePasswords

/-! ## Specification-side definitions -/

/-- The 15 feedback classes `(e, w)` with `e + w ≤ 4` of the spec's Feedback
Class Enumeration. -/
def feedbackClasses : List Combo :=
  [(0, 0), (0, 1), (0, 2), (0, 3), (0, 4), (1, 0), (1, 1), (1, 2), (1, 3),
   (2, 0), (2, 1), (2, 2), (3, 0), (3, 1), (4, 0)]

/-- Spec `hits(g, f)`: the number of `c` in `S` whose simulated feedback
against `g` is not `f`. -/
def specHits (S : List Guess) (g : Guess) (f : Combo) : Nat :=
  (S.filter (fun c => decide ((simulateRedPegs g c, simulateWhitePegs g c) ≠ f))).length

/-- Spec `worst(g)`: the minimum of `hits(g, f)` over the 15 feedback classes. -/
def specWorst (S : List Guess) (g : Guess) : Nat :=
  (feedbackClasses.map (specHits S g)).foldl min (specHits S g (0, 0))

/-- The 20 codes of the Code Space that score `(3, 0)` against `{0,0,1,1}`, in
the order of the candidate list: what the scan leaves of the full list for a
guess object outside of it (shown in `afterThreeRed_eq`). -/
def afterThreeRed : List Guess :=
  [⟨[0, 0, 0, 1], rfl⟩, ⟨[0, 0, 1, 0], rfl⟩, ⟨[0, 0, 1, 2], rfl⟩, ⟨[0, 0, 1, 3], rfl⟩,
   ⟨[0, 0, 1, 4], rfl⟩, ⟨[0, 0, 1, 5], rfl⟩, ⟨[0, 0, 2, 1], rfl⟩, ⟨[0, 0, 3, 1], rfl⟩,
   ⟨[0, 0, 4, 1], rfl⟩, ⟨[0, 0, 5, 1], rfl⟩, ⟨[0, 1, 1, 1], rfl⟩, ⟨[0, 2, 1, 1], rfl⟩,
   ⟨[0, 3, 1, 1], rfl⟩, ⟨[0, 4, 1, 1], rfl⟩, ⟨[0, 5, 1, 1], rfl⟩, ⟨[1, 0, 1, 1], rfl⟩,
   ⟨[2, 0, 1, 1], rfl⟩, ⟨[3, 0, 1, 1], rfl⟩, ⟨[4, 0, 1, 1], rfl⟩, ⟨[5, 0, 1, 1], rfl⟩]

/-- The claim's minimum hit count of `g`: the minimum, over the entries of the
table, of the number of `c` in `S` whose simulated feedback differs from the
entry (`0` for an empty table, which has no minimum). -/
def tableMinHits (combos : List Combo) (S : List Guess) (g : Guess) : Nat :=
  match combos.map (specHits S g) with
  | [] => 0
  | h :: t => t.foldl min h

/-! ## Definitions used in the proofs -/

/-- Symbols of an array at the positions whose exclusion flag is still false. -/
def unexcluded : List Nat → List Bool → List Nat
  | c :: cs, e :: es => if e then unexcluded cs es else c :: unexcluded cs es
  | _, _ => []

/-- Symbols of an array at the positions whose exclusion flag is set. -/
def excluded : List Nat → List Bool → List Nat
  | c :: cs, e :: es => if e then c :: excluded cs es else excluded cs es
  | _, _ => []

/-- Flags of the positions at which two codes agree. -/
def agree : List Nat → List Nat → List Bool
  | a :: as, b :: bs => decide (a = b) :: agree as bs
  | _, _ => []

/-- Structural form of `firstPair`. -/
def firstPairS (x : Nat) : List Nat → List Bool → Option Nat
  | c :: cs, e :: es =>
    if (!e && x == c) then some 0 else (firstPairS x cs es).map (· + 1)
  | _, _ => none

/-- Potential of the second loop of `simulateWhitePegs` before iteration `k`:
the pegs counted so far plus the pairs still to be formed. -/
def whitePotential (g ps : List Nat) (k : Nat) (st : WhiteState) : Nat :=
  st.pegs + Multiset.card
    ((unexcluded (g.drop k) (st.exclusions_g.drop k) : Multiset Nat) ∩
      (unexcluded ps st.exclusions_ps : Multiset Nat))

/-- All words of length `k` over the symbols `0..5`, in lexicographic order. -/
def words : Nat → List (List Nat)
  | 0 => [[]]
  | k + 1 => (List.range 6).flatMap (fun i => (words k).map (fun w => i :: w))

/-! ## Feedback simulator: red plus white is the multiset intersection -/

theorem eq_four {α : Type} (l : List α) (h : l.length = 4) :
    ∃ a b c d, l = [a, b, c, d] :=
  match l, h with
  | [a, b, c, d], _ => ⟨a, b, c, d, rfl⟩

theorem find_range_eq_firstPairS (x : Nat) : ∀ (cs : List Nat) (es : List Bool),
    es.length = cs.length →
    (List.range cs.length).find? (fun j => !rdB es j && x == rd cs j) = firstPairS x cs es
  | [], _, _ => by simp [firstPairS]
  | _ :: _, [], h => by simp at h
  | c :: cs, e :: es, h => by
    have ih := find_range_eq_firstPairS x cs es (by simpa using h)
    rw [List.length_cons, List.range_succ_eq_map, List.find?_cons]
    simp only [firstPairS, rd, rdB, List.getD_cons_zero]
    cases hc : (!e && x == c)
    · simp only [List.find?_map]
      have : ((fun j => !(e :: es).getD j false && x == (c :: cs).getD j 0) ∘ Nat.succ)
          = (fun j => !rdB es j && x == rd cs j) := by
        funext j; simp [rd, rdB]
      rw [this, ih]
      simp
    · simp

theorem firstPair_eq_firstPairS (x : Nat) (cs : List Nat) (es : List Bool)
    (hc : cs.length = 4) (he : es.length = 4) :
    firstPair x cs es = firstPairS x cs es := by
  have := find_range_eq_firstPairS x cs es (by omega)
  rw [hc] at this
  exact this

theorem firstPairS_none (x : Nat) : ∀ (cs : List Nat) (es : List Bool),
    firstPairS x cs es = none → x ∉ unexcluded cs es
  | [], _, _ => by simp [unexcluded]
  | _ :: _, [], _ => by simp [unexcluded]
  | c :: cs, e :: es, h => by
    simp only [firstPairS] at h
    split at h
    · simp at h
    · rename_i hc
      have ih := firstPairS_none x cs es (by simpa using h)
      cases e
      · simp at hc
        simp [unexcluded, hc, ih]
      · simp [unexcluded, ih]

theorem firstPairS_some (x : Nat) : ∀ (cs : List Nat) (es : List Bool) (j : Nat),
    firstPairS x cs es = some j →
      x ∈ unexcluded cs es ∧ unexcluded cs (es.set j true) = (unexcluded cs es).erase x
  | [], _, _ => by simp [firstPairS]
  | _ :: _, [], _ => by simp [firstPairS]
  | c :: cs, e :: es, j => by
    intro h
    simp only [firstPairS] at h
    split at h
    · rename_i hc
      simp at hc
      obtain ⟨he, hx⟩ := hc
      subst he; subst hx
      simp at h; subst h
      simp [unexcluded]
    · rename_i hc
      simp only [Option.map_eq_some'] at h
      obtain ⟨j', hj', rfl⟩ := h
      obtain ⟨ih1, ih2⟩ := firstPairS_some x cs es j' hj'
      cases e
      · simp at hc
        have hne : c ≠ x := fun h => hc h.symm
        simp [unexcluded, ih1, ih2, List.erase_cons_tail, hne]
      · simp [unexcluded, ih1, ih2]

theorem whiteStep_potential (g ps : List Nat) (k : Nat) (st : WhiteState)
    (hk : k < 4) (hg : g.length = 4) (hps : ps.length = 4)
    (heg : st.exclusions_g.length = 4) (heps : st.exclusions_ps.length = 4) :
    (whiteStep g ps st k).exclusions_g.length = 4 ∧
    (whiteStep g ps st k).exclusions_ps.length = 4 ∧
    whitePotential g ps (k + 1) (whiteStep g ps st k) = whitePotential g ps k st := by
  have hgk : g.drop k = rd g k :: g.drop (k + 1) := by
    rw [List.drop_eq_getElem_cons (by omega), rd, List.getD_eq_getElem _ _ (by omega)]
  have hek : st.exclusions_g.drop k = rdB st.exclusions_g k :: st.exclusions_g.drop (k + 1) := by
    rw [List.drop_eq_getElem_cons (by omega), rdB, List.getD_eq_getElem _ _ (by omega)]
  unfold whiteStep
  cases hx : rdB st.exclusions_g k
  · simp only [Bool.not_false, if_true]
    rw [firstPair_eq_firstPairS _ _ _ hps heps]
    cases hf : firstPairS (rd g k) ps st.exclusions_ps with
    | none =>
      have hn := firstPairS_none _ _ _ hf
      refine ⟨heg, heps, ?_⟩
      simp only [whitePotential, hgk, hek, hx, unexcluded, Bool.false_eq_true, if_false]
      rw [← Multiset.cons_coe, Multiset.cons_inter_of_neg _ (by simpa using hn)]
    | some j =>
      obtain ⟨hm, he⟩ := firstPairS_some _ _ _ _ hf
      refine ⟨by simp [heg], by simp [heps], ?_⟩
      simp only [whitePotential, hgk, hek, hx, unexcluded, Bool.false_eq_true, if_false]
      rw [List.drop_set_of_lt _ _ (by omega), he]
      rw [← Multiset.cons_coe, Multiset.cons_inter_of_pos _ (by simpa using hm)]
      simp
      omega
  · refine ⟨by simpa using heg, by simpa using heps, ?_⟩
    simp [whitePotential, hgk, hek, hx, unexcluded]

theorem whiteLoop_potential (g ps : List Nat) (hg : g.length = 4) (hps : ps.length = 4) :
    ∀ (m k : Nat) (st : WhiteState), k + m = 4 →
      st.exclusions_g.length = 4 → st.exclusions_ps.length = 4 →
      ((List.range' k m).foldl (whiteStep g ps) st).pegs = whitePotential g ps k st
  | 0, k, st, hk, heg, _ => by
    have : k = 4 := by omega
    subst this
    simp [whitePotential, List.drop_of_length_le, hg, heg, unexcluded]
  | m + 1, k, st, hk, heg, heps => by
    obtain ⟨h1, h2, h3⟩ := whiteStep_potential g ps k st (by omega) hg hps heg heps
    rw [List.range'_succ, List.foldl_cons,
      whiteLoop_potential g ps hg hps m (k + 1) _ (by omega) h1 h2, h3]

theorem excludeReds_eq (g ps : List Nat) (hg : g.length = 4) (hps : ps.length = 4) :
    excludeReds g ps = (agree g ps, agree g ps) := by
  obtain ⟨a, b, c, d, rfl⟩ := eq_four g hg
  obtain ⟨e, f, g, h, rfl⟩ := eq_four ps hps
  have : List.range 4 = [0, 1, 2, 3] := rfl
  simp only [excludeReds, this, List.foldl, rd, agree]
  by_cases h1 : a = e <;> by_cases h2 : b = f <;> by_cases h3 : c = g <;> by_cases h4 : d = h <;>
    simp [h1, h2, h3, h4]

theorem agree_length : ∀ (g ps : List Nat), g.length = ps.length → (agree g ps).length = g.length
  | [], _, _ => by simp [agree]
  | _ :: _, [], h => by simp at h
  | a :: g, b :: ps, h => by
    simp [agree, agree_length g ps (by simpa using h)]

theorem red_eq_length_excluded (g c : Guess) :
    simulateRedPegs g c = (excluded g.code (agree g.code c.code)).length := by
  obtain ⟨a, b, c', d, h⟩ := eq_four g.code g.size_eq
  obtain ⟨e, f, g', h', h2⟩ := eq_four c.code c.size_eq
  have : List.range 4 = [0, 1, 2, 3] := rfl
  simp only [simulateRedPegs, this, List.foldl, rd, h, h2, agree, excluded]
  by_cases h1 : a = e <;> by_cases h2 : b = f <;> by_cases h3 : c' = g' <;> by_cases h4 : d = h' <;>
    simp [h1, h2, h3, h4]

theorem excluded_agree_comm : ∀ (g ps : List Nat),
    excluded g (agree g ps) = excluded ps (agree g ps)
  | [], _ => by simp [agree, excluded]
  | _ :: _, [] => by simp [agree, excluded]
  | a :: g, b :: ps => by
    by_cases h : a = b
    · simp [agree, excluded, h, excluded_agree_comm g ps]
    · simp [agree, excluded, h, excluded_agree_comm g ps]

theorem split_by_flags : ∀ (cs : List Nat) (es : List Bool), es.length = cs.length →
    (cs : Multiset Nat) = (unexcluded cs es : Multiset Nat) + (excluded cs es : Multiset Nat)
  | [], _, _ => by simp [unexcluded, excluded]
  | _ :: _, [], h => by simp at h
  | c :: cs, e :: es, h => by
    have ih := split_by_flags cs es (by simpa using h)
    cases e
    · simp only [unexcluded, excluded, Bool.false_eq_true, if_false]
      rw [← Multiset.cons_coe, ← Multiset.cons_coe, ih, Multiset.cons_add]
    · simp only [unexcluded, excluded, if_true]
      rw [← Multiset.cons_coe, ← Multiset.cons_coe, ih, Multiset.add_cons]

/-- Red plus white pegs count the multiset intersection of the two codes. -/
theorem white_add_red (g c : Guess) :
    simulateWhitePegs g c + simulateRedPegs g c =
      Multiset.card ((g.code : Multiset Nat) ∩ (c.code : Multiset Nat)) := by
  have hl : g.code.length = c.code.length := by rw [g.size_eq, c.size_eq]
  have hE : (agree g.code c.code).length = 4 := by rw [agree_length _ _ hl, g.size_eq]
  have hw : simulateWhitePegs g c = Multiset.card
      ((unexcluded g.code (agree g.code c.code) : Multiset Nat) ∩
        (unexcluded c.code (agree g.code c.code) : Multiset Nat)) := by
    simp only [simulateWhitePegs, excludeReds_eq _ _ g.size_eq c.size_eq, List.range_eq_range']
    rw [whiteLoop_potential _ _ g.size_eq c.size_eq 4 0 _ rfl hE hE]
    simp [whitePotential]
  have h1 := split_by_flags g.code (agree g.code c.code) (by rw [hE, g.size_eq])
  have h2 := split_by_flags c.code (agree g.code c.code) (by rw [hE, c.size_eq])
  rw [← excluded_agree_comm] at h2
  rw [h1, h2, ← Multiset.inter_add_distrib, Multiset.card_add, hw, red_eq_length_excluded]
  rfl

theorem sum_range_count (m : Multiset Nat) (n : Nat) (h : ∀ s ∈ m, s < n) :
    ∑ s ∈ Finset.range n, m.count s = Multiset.card m := by
  rw [← Multiset.toFinset_sum_count_eq]
  symm
  apply Finset.sum_subset
  · intro x hx
    simpa using h x (by simpa using hx)
  · intro x _ hx
    simpa using hx

theorem red_comm (g c : Guess) : simulateRedPegs g c = simulateRedPegs c g := by
  obtain ⟨a, b, c', d, h⟩ := eq_four g.code g.size_eq
  obtain ⟨e, f, g', h', h2⟩ := eq_four c.code c.size_eq
  have : List.range 4 = [0, 1, 2, 3] := rfl
  simp only [simulateRedPegs, this, List.foldl, rd, h, h2]
  simp only [List.getD_cons_zero, List.getD_cons_succ, eq_comm]

theorem red_self (g : Guess) : simulateRedPegs g g = 4 := by
  have : List.range 4 = [0, 1, 2, 3] := rfl
  simp [simulateRedPegs, this]

/-! ## Code space enumeration -/

theorem foldl_append_flatMap {α β : Type} (f : List β → α → List β) (h : α → List β)
    (hf : ∀ acc a, f acc a = acc ++ h a) :
    ∀ (l : List α) (acc : List β), l.foldl f acc = acc ++ l.flatMap h
  | [], acc => by simp
  | a :: l, acc => by
    rw [List.foldl_cons, hf, foldl_append_flatMap f h hf l, List.flatMap_cons, List.append_assoc]

theorem generatePasswordsRec_eq (target_size : Nat) :
    ∀ (k : Nat) (passwords : List (List Nat)) (branch : List Nat),
      target_size - branch.length = k →
      generatePasswordsRec passwords branch target_size =
        passwords ++ (words k).map (fun w => branch ++ w)
  | 0, passwords, branch, hk => by
    rw [generatePasswordsRec, if_pos (by omega)]
    simp [words]
  | k + 1, passwords, branch, hk => by
    rw [generatePasswordsRec, if_neg (by omega)]
    rw [foldl_append_flatMap _ (fun i => (words k).map (fun w => (branch ++ [i]) ++ w))]
    · simp [words, List.map_flatMap, Function.comp_def]
    · intro acc a
      exact generatePasswordsRec_eq target_size k acc (branch ++ [a])
        (by simp only [List.length_append, List.length_singleton]; omega)

theorem generatePasswords_eq : generatePasswords = words 4 := by
  rw [generatePasswords, generatePasswordsRec_eq 4 4 [] [] rfl]
  simp

theorem mem_words : ∀ (k : Nat) (w : List Nat),
    w ∈ words k ↔ w.length = k ∧ ∀ s ∈ w, s < 6
  | 0, w => by
    simp only [words, List.mem_singleton]
    constructor
    · rintro rfl; simp
    · rintro ⟨h, _⟩; exact List.length_eq_zero.mp h
  | k + 1, w => by
    simp only [words, List.mem_flatMap, List.mem_range, List.mem_map]
    constructor
    · rintro ⟨i, hi, v, hv, rfl⟩
      obtain ⟨h1, h2⟩ := (mem_words k v).mp hv
      refine ⟨by simp [h1], ?_⟩
      intro s hs
      rcases List.mem_cons.mp hs with rfl | hs
      · exact hi
      · exact h2 s hs
    · rintro ⟨h1, h2⟩
      cases w with
      | nil => simp at h1
      | cons i v =>
        refine ⟨i, h2 i (by simp), v, ?_, rfl⟩
        exact (mem_words k v).mpr ⟨by simpa using h1, fun s hs => h2 s (by simp [hs])⟩

theorem length_words : ∀ k : Nat, (words k).length = 6 ^ k
  | 0 => by simp [words]
  | k + 1 => by
    have : List.range 6 = [0, 1, 2, 3, 4, 5] := rfl
    simp only [words, this, List.flatMap_cons, List.flatMap_nil, List.length_append,
      List.length_map, length_words k, List.length_nil]
    rw [pow_succ]
    omega

theorem nodup_words : ∀ k : Nat, (words k).Nodup
  | 0 => by simp [words]
  | k + 1 => by
    rw [words, List.nodup_flatMap]
    constructor
    · intro i _
      exact (nodup_words k).map (fun a b h => by simpa using h)
    · refine (List.nodup_range 6).pairwise_of_forall_ne ?_
      intro a _ b _ hab
      simp only [Function.onFun]
      rw [List.disjoint_left]
      intro w hw hw2
      simp only [List.mem_map] at hw hw2
      obtain ⟨v, _, rfl⟩ := hw
      obtain ⟨v2, _, h⟩ := hw2
      simp at h
      exact hab h.1.symm

theorem prepareGuesses_nil (passwords : List (List Nat)) :
    prepareGuesses [] passwords = passwords.map newGuess := by
  have key : ∀ (l : List (List Nat)) (acc : List Guess),
      l.foldl (fun (st : List Guess × List Guess) p => (st.1 ++ [newGuess p], [])) (acc, [])
        = (acc ++ l.map newGuess, []) := by
    intro l
    induction l with
    | nil => intro acc; simp
    | cons p l ih => intro acc; simp [ih]
  simp [prepareGuesses, key]

theorem newGuess_code (p : List Nat) (h : p.length = 4) : (newGuess p).code = p := by
  obtain ⟨a, b, c, d, rfl⟩ := eq_four p h
  simp [newGuess, rd]

theorem initialCandidates_codes : initialCandidates.map (fun g => g.code) = words 4 := by
  rw [initialCandidates, prepareGuesses_nil, generatePasswords_eq, List.map_map]
  conv_rhs => rw [← List.map_id (words 4)]
  apply List.map_congr_left
  intro p hp
  exact newGuess_code p ((mem_words 4 p).mp hp).1

theorem mem_initialCandidates (g : Guess) :
    g ∈ initialCandidates ↔ ∀ s ∈ g.code, s < 6 := by
  constructor
  · intro h
    have : g.code ∈ initialCandidates.map (fun g => g.code) := List.mem_map_of_mem _ h
    rw [initialCandidates_codes] at this
    exact ((mem_words 4 _).mp this).2
  · intro h
    have : g.code ∈ words 4 := (mem_words 4 _).mpr ⟨g.size_eq, h⟩
    rw [← initialCandidates_codes, List.mem_map] at this
    obtain ⟨g2, hg2, hc⟩ := this
    have : g2 = g := by cases g; cases g2; simp_all
    exact this ▸ hg2

theorem length_initialCandidates : initialCandidates.length = 1296 := by
  have := congrArg List.length initialCandidates_codes
  rw [List.length_map, length_words] at this
  simpa using this

theorem nodup_initialCandidates_codes : (initialCandidates.map (fun g => g.code)).Nodup := by
  rw [initialCandidates_codes]; exact nodup_words 4

/-! ## Guess selector and the full candidate list -/

theorem maximinningGuess_mem (combos : List Combo) (head : List Guess) (h : head ≠ []) :
    ∃ g ∈ head, maximinningGuess combos head = some g := by
  have key : ∀ (l : List Guess) (st : Nat × Option Guess),
      (∀ i ∈ l, i ∈ head) → (∃ g ∈ head, st.2 = some g) →
      ∃ g ∈ head, (l.foldl
        (fun (st : Nat × Option Guess) i =>
          if minHits combos head i > st.1 then (minHits combos head i, some i) else st) st).2
        = some g := by
    intro l
    induction l with
    | nil => intro st _ hst; simpa using hst
    | cons i l ih =>
      intro st hl hst
      rw [List.foldl_cons]
      apply ih
      · intro j hj; exact hl j (by simp [hj])
      · split
        · exact ⟨i, hl i (by simp), rfl⟩
        · exact hst
  cases head with
  | nil => exact absurd rfl h
  | cons a t => exact key (a :: t) (0, some a) (fun i hi => hi) ⟨a, by simp, rfl⟩

theorem initialCandidates_eq : initialCandidates = (words 4).map newGuess := by
  rw [initialCandidates, prepareGuesses_nil, generatePasswords_eq]

/-! ## The opening guess, hit counts and the first best node -/

theorem find_first_guess :
    initialCandidates.find? (fun i => decide (i.code = [0, 0, 1, 1])) =
      some ⟨[0, 0, 1, 1], rfl⟩ := by
  rw [initialCandidates_eq]
  decide

theorem countHits_aux (i : Guess) (r : Combo) :
    ∀ (l : List Guess) (acc : Nat), acc + l.length < 65536 →
      l.foldl
        (fun hits j =>
          if simulateRedPegs i j ≠ r.1 ∨ simulateWhitePegs i j ≠ r.2 then (hits + 1) % 65536
          else hits) acc = acc + specHits l i r
  | [], acc, _ => by simp [specHits]
  | j :: l, acc, h => by
    rw [List.foldl_cons]
    simp only [List.length_cons] at h
    by_cases hp : simulateRedPegs i j ≠ r.1 ∨ simulateWhitePegs i j ≠ r.2
    · rw [if_pos hp, Nat.mod_eq_of_lt (by omega), countHits_aux i r l (acc + 1) (by omega)]
      have : (simulateRedPegs i j, simulateWhitePegs i j) ≠ r := by
        intro he; rw [← he] at hp; simp at hp
      simp only [specHits, List.filter_cons, this, ne_eq, not_false_eq_true, decide_True,
        if_true, List.length_cons]
      omega
    · rw [if_neg hp, countHits_aux i r l acc (by omega)]
      have : (simulateRedPegs i j, simulateWhitePegs i j) = r := by
        have : simulateRedPegs i j = r.1 ∧ simulateWhitePegs i j = r.2 := by tauto
        exact Prod.ext this.1 this.2
      simp [specHits, List.filter_cons, this]

theorem countHits_eq (S : List Guess) (i : Guess) (r : Combo) (h : S.length < 65536) :
    countHits S i r = specHits S i r := by
  rw [countHits, countHits_aux i r S 0 (by omega)]
  omega

theorem specHits_le (S : List Guess) (g : Guess) (f : Combo) : specHits S g f ≤ S.length :=
  List.length_filter_le _ _

theorem foldl_minStep (h : Combo → Nat) :
    ∀ (l : List Combo) (m : Nat),
      l.foldl (fun min_hits r => if h r < min_hits then h r else min_hits) m =
        (l.map h).foldl min m
  | [], m => rfl
  | r :: l, m => by
    rw [List.foldl_cons, List.map_cons, List.foldl_cons, foldl_minStep h l]
    congr 1
    by_cases hlt : h r < m
    · rw [if_pos hlt]; omega
    · rw [if_neg hlt]; omega

theorem foldl_min_le : ∀ (l : List Nat) (m : Nat), l.foldl min m ≤ m
  | [], m => le_refl m
  | a :: l, m => by
    rw [List.foldl_cons]
    exact le_trans (foldl_min_le l (min m a)) (min_le_left m a)

theorem minHits_eq (combos : List Combo) (S : List Guess) (i : Guess)
    (hc : combos ≠ []) (hS : S.length ≤ 1296) :
    minHits combos S i = tableMinHits combos S i := by
  rw [minHits, foldl_minStep (countHits S i)]
  have hfun : countHits S i = specHits S i := by
    funext r; exact countHits_eq S i r (by omega)
  rw [hfun, tableMinHits]
  cases combos with
  | nil => exact absurd rfl hc
  | cons r t =>
    simp only [List.map_cons, List.foldl_cons]
    have := specHits_le S i r
    rw [min_eq_right (by omega)]

theorem foldl_best_unchanged (f : Guess → Nat) :
    ∀ (l : List Guess) (st : Nat × Option Guess), (∀ x ∈ l, f x ≤ st.1) →
      l.foldl (fun (st : Nat × Option Guess) i => if f i > st.1 then (f i, some i) else st) st
        = st
  | [], _, _ => rfl
  | i :: l, st, h => by
    rw [List.foldl_cons, if_neg (by have := h i (by simp); omega)]
    exact foldl_best_unchanged f l st (fun x hx => h x (by simp [hx]))

theorem foldl_best_first (f : Guess → Nat) :
    ∀ (l : List Guess) (st : Nat × Option Guess), (∃ x ∈ l, st.1 < f x) →
      ∃ pre g post, l = pre ++ g :: post ∧
        l.foldl (fun (st : Nat × Option Guess) i => if f i > st.1 then (f i, some i) else st) st
          = (f g, some g) ∧
        st.1 < f g ∧ (∀ x ∈ pre, f x < f g) ∧ (∀ x ∈ post, f x ≤ f g)
  | [], _, h => by simp at h
  | i :: l, st, h => by
    rw [List.foldl_cons]
    by_cases hi : f i > st.1
    · rw [if_pos hi]
      by_cases hl : ∃ x ∈ l, f i < f x
      · obtain ⟨pre, g, post, hsplit, hres, hgt, hpre, hpost⟩ :=
          foldl_best_first f l (f i, some i) hl
        refine ⟨i :: pre, g, post, by rw [hsplit]; rfl, hres, by simp only at hgt; omega, ?_, hpost⟩
        intro x hx
        rcases List.mem_cons.mp hx with rfl | hx
        · exact hgt
        · exact hpre x hx
      · have hall : ∀ x ∈ l, f x ≤ f i := by
          intro x hx
          by_contra hc
          exact hl ⟨x, hx, by omega⟩
        refine ⟨[], i, l, rfl, foldl_best_unchanged f l (f i, some i) hall, hi, by simp, hall⟩
    · rw [if_neg hi]
      have hl : ∃ x ∈ l, st.1 < f x := by
        obtain ⟨x, hx, hlt⟩ := h
        rcases List.mem_cons.mp hx with rfl | hx
        · exact absurd hlt hi
        · exact ⟨x, hx, hlt⟩
      obtain ⟨pre, g, post, hsplit, hres, hgt, hpre, hpost⟩ := foldl_best_first f l st hl
      refine ⟨i :: pre, g, post, by rw [hsplit]; rfl, hres, hgt, ?_, hpost⟩
      intro x hx
      rcases List.mem_cons.mp hx with rfl | hx
      · omega
      · exact hpre x hx

theorem maximinningGuess_first_best (combos : List Combo) (S : List Guess) (hS : S ≠ []) :
    ∃ pre g post, S = pre ++ g :: post ∧ maximinningGuess combos S = some g ∧
      (∀ x ∈ pre, minHits combos S x < minHits combos S g) ∧
      (∀ x ∈ post, minHits combos S x ≤ minHits combos S g) := by
  by_cases h : ∃ x ∈ S, (0 : Nat) < minHits combos S x
  · obtain ⟨pre, g, post, hsplit, hres, _, hpre, hpost⟩ :=
      foldl_best_first (minHits combos S) S (0, S.head?) h
    refine ⟨pre, g, post, hsplit, ?_, hpre, hpost⟩
    rw [maximinningGuess]
    exact congrArg Prod.snd hres
  · have hall : ∀ x ∈ S, minHits combos S x ≤ 0 := by
      intro x hx
      by_contra hc
      exact h ⟨x, hx, by omega⟩
    cases S with
    | nil => exact absurd rfl hS
    | cons a t =>
      refine ⟨[], a, t, rfl, ?_, by simp, ?_⟩
      · rw [maximinningGuess]
        exact congrArg Prod.snd
          (foldl_best_unchanged (minHits combos (a :: t)) (a :: t) (0, some a) hall)
      · intro x hx
        have h1 := hall x (by simp [hx])
        omega

/-! ## The loops of `initPegCombos` -/

theorem initPegCombosBody_eq (a0 a1 a2 a3 a4 a5 a6 a7 a8 a9 a10 a11 a12 a13 a14 : Combo) :
    initPegCombosBody [a0, a1, a2, a3, a4, a5, a6, a7, a8, a9, a10, a11, a12, a13, a14] =
      { combos := [(0, 0), (0, 1), (0, 2), (0, 3), (0, 4), (1, 0), (1, 1), (1, 2), (1, 3),
          (2, 0), (2, 1), (2, 2), (3, 0), (3, 1), (4, 0)]
        i := 15
        writes := [0, 1, 2, 3, 4, 5, 6, 7, 8, 9, 10, 11, 12, 13, 14]
        inBounds := true } := by
  have h5 : List.range 5 = [0, 1, 2, 3, 4] := rfl
  have h4 : List.range 4 = [0, 1, 2, 3] := rfl
  have h3 : List.range 3 = [0, 1, 2] := rfl
  have h2 : List.range 2 = [0, 1] := rfl
  have h1 : List.range 1 = [0] := rfl
  simp [initPegCombosBody, h5, h4, h3, h2, h1]

/-! ## The scan of `deduceByRedAndWhite` -/

theorem red_add_white_le (g c : Guess) : simulateRedPegs g c + simulateWhitePegs g c ≤ 4 := by
  have h := white_add_red g c
  have h2 : Multiset.card ((g.code : Multiset Nat) ∩ (c.code : Multiset Nat)) ≤
      Multiset.card (g.code : Multiset Nat) := Multiset.card_le_card (Multiset.inter_le_left _ _)
  rw [Multiset.coe_card, g.size_eq] at h2
  omega

theorem no_three_red_one_white (g c : Guess) :
    simulateRedPegs g c ≠ 3 ∨ simulateWhitePegs g c ≠ 1 := by
  by_contra hcon
  have hr : simulateRedPegs g c = 3 := by
    by_contra h; exact hcon (Or.inl h)
  have hw : simulateWhitePegs g c = 1 := by
    by_contra h; exact hcon (Or.inr h)
  have h := white_add_red g c
  rw [hr, hw] at h
  have hle : (g.code : Multiset Nat) ∩ (c.code : Multiset Nat) ≤ (g.code : Multiset Nat) :=
    Multiset.inter_le_left _ _
  have heq : (g.code : Multiset Nat) ∩ (c.code : Multiset Nat) = (g.code : Multiset Nat) :=
    Multiset.eq_of_le_of_card_le hle (by rw [← h, Multiset.coe_card, g.size_eq])
  have hgc : (g.code : Multiset Nat) ≤ (c.code : Multiset Nat) := by
    rw [← heq]; exact Multiset.inter_le_right _ _
  have hgc2 : (g.code : Multiset Nat) = (c.code : Multiset Nat) :=
    Multiset.eq_of_le_of_card_le hgc
      (by rw [Multiset.coe_card, Multiset.coe_card, g.size_eq, c.size_eq])
  have hsum : g.code.sum = c.code.sum := by
    have := congrArg Multiset.sum hgc2
    simpa using this
  obtain ⟨a, b, c', d, h1⟩ := eq_four g.code g.size_eq
  obtain ⟨e, f, g', h', h2⟩ := eq_four c.code c.size_eq
  have hrange : List.range 4 = [0, 1, 2, 3] := rfl
  simp only [simulateRedPegs, hrange, List.foldl, rd, h1, h2] at hr
  rw [h1, h2] at hsum
  simp only [List.sum_cons, List.sum_nil] at hsum
  by_cases q1 : a = e <;> by_cases q2 : b = f <;> by_cases q3 : c' = g' <;>
    by_cases q4 : d = h' <;> simp [q1, q2, q3, q4] at hr <;> omega

theorem guess_eq_of_code (c g : Guess) (h : c.code = g.code) : c = g := by
  cases c; cases g; simp_all

theorem scan_nil (stale guess : Guess) (red white : Nat) (ref : GuessRef) :
    deduceByRedAndWhite stale guess red white ref [] =
      { list := [], ref := ref, freedReads := 0 } := by
  rw [deduceByRedAndWhite]

theorem scan_cons (stale guess : Guess) (red white : Nat) (ref : GuessRef) (next : Guess)
    (rest : List Guess) :
    deduceByRedAndWhite stale guess red white ref (next :: rest) =
      if simulateRedPegs (if ref = GuessRef.freed then stale else guess) next ≠ red ∨
          simulateWhitePegs (if ref = GuessRef.freed then stale else guess) next ≠ white then
        { list := (deduceByRedAndWhite stale guess red white
            (if ref = GuessRef.inList ∧ next = guess then GuessRef.freed else ref) rest).list,
          ref := (deduceByRedAndWhite stale guess red white
            (if ref = GuessRef.inList ∧ next = guess then GuessRef.freed else ref) rest).ref,
          freedReads := (deduceByRedAndWhite stale guess red white
            (if ref = GuessRef.inList ∧ next = guess then GuessRef.freed else ref)
              rest).freedReads + (if ref = GuessRef.freed then 1 else 0) }
      else
        { list := next :: (deduceByRedAndWhite stale guess red white
            (if ref = GuessRef.inList ∧ next = guess then GuessRef.outside else ref) rest).list,
          ref := if ref = GuessRef.inList ∧ next = guess then GuessRef.inList else
            (deduceByRedAndWhite stale guess red white
              (if ref = GuessRef.inList ∧ next = guess then GuessRef.outside else ref) rest).ref,
          freedReads := (deduceByRedAndWhite stale guess red white
            (if ref = GuessRef.inList ∧ next = guess then GuessRef.outside else ref)
              rest).freedReads + (if ref = GuessRef.freed then 1 else 0) } := by
  rw [deduceByRedAndWhite]
  rfl

theorem scan_list_cons (stale guess : Guess) (red white : Nat) (ref : GuessRef) (next : Guess)
    (rest : List Guess) :
    (deduceByRedAndWhite stale guess red white ref (next :: rest)).list =
      if simulateRedPegs (if ref = GuessRef.freed then stale else guess) next ≠ red ∨
          simulateWhitePegs (if ref = GuessRef.freed then stale else guess) next ≠ white then
        (deduceByRedAndWhite stale guess red white
          (if ref = GuessRef.inList ∧ next = guess then GuessRef.freed else ref) rest).list
      else
        next :: (deduceByRedAndWhite stale guess red white
          (if ref = GuessRef.inList ∧ next = guess then GuessRef.outside else ref) rest).list := by
  rw [scan_cons]
  by_cases h : simulateRedPegs (if ref = GuessRef.freed then stale else guess) next ≠ red ∨
      simulateWhitePegs (if ref = GuessRef.freed then stale else guess) next ≠ white
  · rw [if_pos h, if_pos h]
  · rw [if_neg h, if_neg h]

theorem scan_outside (stale guess : Guess) (red white : Nat) :
    ∀ S : List Guess,
      deduceByRedAndWhite stale guess red white GuessRef.outside S =
        { list := S.filter
            (fun c => decide (simulateRedPegs guess c = red ∧ simulateWhitePegs guess c = white)),
          ref := GuessRef.outside, freedReads := 0 }
  | [] => by rw [scan_nil]; rfl
  | next :: rest => by
    have ih := scan_outside stale guess red white rest
    rw [scan_cons]
    by_cases h : simulateRedPegs guess next ≠ red ∨ simulateWhitePegs guess next ≠ white
    · have hf : ¬ (simulateRedPegs guess next = red ∧ simulateWhitePegs guess next = white) := by
        tauto
      simp [h, ih, List.filter_cons, hf]
    · have hf : simulateRedPegs guess next = red ∧ simulateWhitePegs guess next = white := by
        tauto
      simp [ih, List.filter_cons, hf]

theorem mem_scan_outside (stale : Guess) (S : List Guess) (g : Guess) (red white : Nat)
    (c : Guess) :
    c ∈ (deduceByRedAndWhite stale g red white GuessRef.outside S).list ↔
      c ∈ S ∧ simulateRedPegs g c = red ∧ simulateWhitePegs g c = white := by
  rw [scan_outside, List.mem_filter]
  simp

theorem scan_sublist (stale guess : Guess) (red white : Nat) :
    ∀ (S : List Guess) (ref : GuessRef),
      List.Sublist (deduceByRedAndWhite stale guess red white ref S).list S
  | [], _ => by rw [scan_nil]
  | next :: rest, ref => by
    rw [scan_list_cons]
    by_cases h : simulateRedPegs (if ref = GuessRef.freed then stale else guess) next ≠ red ∨
        simulateWhitePegs (if ref = GuessRef.freed then stale else guess) next ≠ white
    · rw [if_pos h]
      exact (scan_sublist stale guess red white rest _).cons next
    · rw [if_neg h]
      exact (scan_sublist stale guess red white rest _).cons₂ next

theorem scan_outside_length_lt (stale : Guess) (S : List Guess) (g : Guess) (red white : Nat)
    (hg : g ∈ S) (hred : red ≠ 4) :
    (deduceByRedAndWhite stale g red white GuessRef.outside S).list.length < S.length := by
  rw [scan_outside]
  apply List.length_filter_lt_length_iff_exists.mpr
  refine ⟨g, hg, ?_⟩
  simp [red_self, Ne.symm hred]

theorem scan_inList_length_lt (stale guess : Guess) (red white : Nat) (hred : red ≠ 4) :
    ∀ S : List Guess, guess ∈ S →
      (deduceByRedAndWhite stale guess red white GuessRef.inList S).list.length < S.length
  | [], h => by simp at h
  | next :: rest, h => by
    rw [scan_list_cons]
    by_cases hn : next = guess
    · subst hn
      have hmis : simulateRedPegs next next ≠ red ∨ simulateWhitePegs next next ≠ white :=
        Or.inl (by rw [red_self]; exact fun h4 => hred h4.symm)
      simp only [reduceCtorEq, if_false, hmis, if_true, and_self, List.length_cons]
      exact Nat.lt_succ_of_le (scan_sublist stale next red white rest _).length_le
    · have hmem : guess ∈ rest := by
        rcases List.mem_cons.mp h with h | h
        · exact absurd h.symm hn
        · exact h
      have ih := scan_inList_length_lt stale guess red white hred rest hmem
      simp only [reduceCtorEq, if_false, hn, and_false]
      split
      · simp only [List.length_cons]; omega
      · simp only [List.length_cons]; omega

theorem scan_inList_not_mem (stale guess : Guess) (red white : Nat) (hred : red ≠ 4) :
    ∀ S : List Guess, S.Nodup →
      guess ∉ (deduceByRedAndWhite stale guess red white GuessRef.inList S).list
  | [], _ => by rw [scan_nil]; simp
  | next :: rest, hn => by
    rw [scan_list_cons]
    have hrest : rest.Nodup := (List.nodup_cons.mp hn).2
    by_cases hg : next = guess
    · subst hg
      have hmis : simulateRedPegs next next ≠ red ∨ simulateWhitePegs next next ≠ white :=
        Or.inl (by rw [red_self]; exact fun h4 => hred h4.symm)
      simp only [reduceCtorEq, if_false, hmis, if_true, and_self]
      intro hmem
      exact (List.nodup_cons.mp hn).1 ((scan_sublist stale next red white rest _).subset hmem)
    · have ih := scan_inList_not_mem stale guess red white hred rest hrest
      simp only [reduceCtorEq, if_false, hg, and_false]
      split
      · exact ih
      · intro hmem
        rcases List.mem_cons.mp hmem with h | h
        · exact hg h.symm
        · exact ih h

theorem scan_freed (stale guess : Guess) (red white : Nat) :
    ∀ S : List Guess,
      (deduceByRedAndWhite stale guess red white GuessRef.freed S).ref = GuessRef.freed ∧
      (deduceByRedAndWhite stale guess red white GuessRef.freed S).freedReads = S.length
  | [] => by rw [scan_nil]; exact ⟨rfl, rfl⟩
  | next :: rest => by
    have ih := scan_freed stale guess red white rest
    rw [scan_cons]
    simp only [reduceCtorEq, false_and, if_false, if_true]
    split
    · exact ⟨ih.1, by simp only [ih.2, List.length_cons]⟩
    · exact ⟨ih.1, by simp only [ih.2, List.length_cons]⟩

theorem scan_inList_frees (stale guess : Guess) (red white : Nat) (hred : red ≠ 4) :
    ∀ S : List Guess, guess ∈ S →
      (deduceByRedAndWhite stale guess red white GuessRef.inList S).ref = GuessRef.freed ∧
      (deduceByRedAndWhite stale guess red white GuessRef.inList S).freedReads +
        (S.indexOf guess + 1) = S.length
  | [], h => by simp at h
  | next :: rest, h => by
    rw [scan_cons]
    by_cases hn : next = guess
    · subst hn
      have hmis : simulateRedPegs next next ≠ red ∨ simulateWhitePegs next next ≠ white :=
        Or.inl (by rw [red_self]; exact fun h4 => hred h4.symm)
      have hf := scan_freed stale next red white rest
      simp only [reduceCtorEq, if_false, hmis, if_true, and_self, List.indexOf_cons_self,
        List.length_cons, hf.1, hf.2, true_and]
    · have hmem : guess ∈ rest := by
        rcases List.mem_cons.mp h with h | h
        · exact absurd h.symm hn
        · exact h
      have ih := scan_inList_frees stale guess red white hred rest hmem
      have hne : guess ≠ next := fun e => hn e.symm
      simp only [reduceCtorEq, if_false, hn, and_false, List.indexOf_cons_ne _ hne.symm,
        List.length_cons]
      split
      · exact ⟨ih.1, by simp only; omega⟩
      · exact ⟨ih.1, by simp only; omega⟩

theorem scan_impossible (stale guess : Guess) (red white : Nat)
    (h : ∀ a b : Guess, simulateRedPegs a b ≠ red ∨ simulateWhitePegs a b ≠ white) :
    ∀ (S : List Guess) (ref : GuessRef),
      (deduceByRedAndWhite stale guess red white ref S).list = []
  | [], _ => by rw [scan_nil]
  | next :: rest, ref => by
    rw [scan_list_cons, if_pos (h _ _)]
    exact scan_impossible stale guess red white h rest _

theorem scan_malformed (stale guess : Guess) (red white : Nat) (h : red + white > 4)
    (S : List Guess) (ref : GuessRef) :
    (deduceByRedAndWhite stale guess red white ref S).list = [] := by
  apply scan_impossible
  intro a b
  have := red_add_white_le a b
  by_contra hcon
  have h1 : simulateRedPegs a b = red := by
    by_contra h'; exact hcon (Or.inl h')
  have h2 : simulateWhitePegs a b = white := by
    by_contra h'; exact hcon (Or.inr h')
  omega

/-! ## The opening deduction on the full list -/

set_option maxRecDepth 1000000 in
set_option maxHeartbeats 4000000 in
theorem afterThreeRed_eq (stale : Guess) :
    (deduceByRedAndWhite stale ⟨[0, 0, 1, 1], rfl⟩ 3 0 GuessRef.outside initialCandidates).list =
      afterThreeRed := by
  rw [scan_outside, initialCandidates_eq]
  decide

set_option maxRecDepth 1000000 in
set_option maxHeartbeats 4000000 in
theorem length_after_no_pegs (stale : Guess) :
    (deduceByRedAndWhite stale ⟨[0, 0, 1, 1], rfl⟩ 0 0 GuessRef.outside
      initialCandidates).list.length = 256 := by
  rw [scan_outside, initialCandidates_eq]
  decide

set_option maxRecDepth 1000000 in
set_option maxHeartbeats 4000000 in
theorem index_first_guess :
    initialCandidates.indexOf (⟨[0, 0, 1, 1], rfl⟩ : Guess) = 7 := by
  rw [initialCandidates_eq]
  decide

theorem full_scan_reads_freed (stale : Guess) (red white : Nat) (hred : red ≠ 4) :
    (deduceByRedAndWhite stale ⟨[0, 0, 1, 1], rfl⟩ red white GuessRef.inList
      initialCandidates).ref = GuessRef.freed ∧
    (deduceByRedAndWhite stale ⟨[0, 0, 1, 1], rfl⟩ red white GuessRef.inList
      initialCandidates).freedReads = 1288 := by
  have h := scan_inList_frees stale ⟨[0, 0, 1, 1], rfl⟩ red white hred initialCandidates
    ((mem_initialCandidates _).mpr (by decide))
  rw [index_first_guess, length_initialCandidates] at h
  exact ⟨h.1, by omega⟩

set_option maxRecDepth 1000000 in
set_option maxHeartbeats 4000000 in
theorem scan_three_red :
    deduceByRedAndWhite linkBits ⟨[0, 0, 1, 1], rfl⟩ 3 0 GuessRef.inList initialCandidates =
      { list := [⟨[0, 0, 0, 1], rfl⟩, ⟨[0, 0, 1, 0], rfl⟩], ref := GuessRef.freed,
        freedReads := 1288 } := by
  rw [initialCandidates_eq]
  decide

set_option maxRecDepth 1000000 in
set_option maxHeartbeats 4000000 in
theorem scan_two_red :
    deduceByRedAndWhite linkBits ⟨[0, 0, 1, 1], rfl⟩ 2 0 GuessRef.inList initialCandidates =
      { list := [⟨[0, 0, 0, 0], rfl⟩, ⟨[0, 0, 0, 2], rfl⟩, ⟨[0, 0, 0, 3], rfl⟩,
          ⟨[0, 0, 0, 4], rfl⟩, ⟨[0, 0, 0, 5], rfl⟩],
        ref := GuessRef.freed, freedReads := 1288 } := by
  rw [initialCandidates_eq]
  decide

set_option maxRecDepth 1000000 in
set_option maxHeartbeats 4000000 in
theorem scan_no_pegs :
    (deduceByRedAndWhite linkBits ⟨[0, 0, 1, 1], rfl⟩ 0 0 GuessRef.inList
      initialCandidates).list.length = 625 ∧
    (⟨[1, 1, 1, 1], rfl⟩ : Guess) ∈
      (deduceByRedAndWhite linkBits ⟨[0, 0, 1, 1], rfl⟩ 0 0 GuessRef.inList
        initialCandidates).list := by
  rw [initialCandidates_eq]
  decide

/-! ## The session loop -/

theorem accepts_of_range (i : Int) (h0 : 0 ≤ i) (h1 : i ≤ INT_MAX) :
    intInputAccepts 0 INT_MAX i = true := by
  simp only [intInputAccepts, Bool.not_eq_true', Bool.or_eq_false_iff, decide_eq_false_iff_not]
  omega

theorem mainTurn_solved (stale : Guess → Guess) (combos : List Combo)
    (answer : Guess → Int × Int) (first : Option Guess) (head : List Guess) (turn_no : Nat)
    (guess : Guess)
    (hsel : (if turn_no = 1 then first else maximinningGuess combos head) = some guess)
    (hr : intInputAccepts 0 INT_MAX (answer guess).1 = true)
    (hred : toUnsignedShort (answer guess).1 = 4) :
    mainTurn stale combos answer first head turn_no = Turn.solved guess := by
  rw [mainTurn, hsel]
  simp only [hr, hred, Bool.true_eq_false, if_false, if_true]

theorem mainTurn_next (stale : Guess → Guess) (combos : List Combo)
    (answer : Guess → Int × Int) (first : Option Guess) (head : List Guess) (turn_no : Nat)
    (guess : Guess)
    (hsel : (if turn_no = 1 then first else maximinningGuess combos head) = some guess)
    (hr : intInputAccepts 0 INT_MAX (answer guess).1 = true)
    (hw : intInputAccepts 0 INT_MAX (answer guess).2 = true)
    (hred : toUnsignedShort (answer guess).1 ≠ 4) :
    mainTurn stale combos answer first head turn_no =
      Turn.next guess
        (deduceByRedAndWhite (stale guess) guess (toUnsignedShort (answer guess).1)
          (toUnsignedShort (answer guess).2) GuessRef.inList head).list
        ((turn_no + 1) % 65536) := by
  rw [mainTurn, hsel]
  simp only [hr, hw, hred, Bool.true_eq_false, if_false]

theorem mainTurn_nil (stale : Guess → Guess) (combos : List Combo)
    (answer : Guess → Int × Int) (first : Option Guess) (turn_no : Nat) (h : turn_no ≠ 1) :
    mainTurn stale combos answer first [] turn_no = Turn.nullGuess := by
  rw [mainTurn, if_neg h]
  rfl

theorem mainLoop_next (stale : Guess → Guess) (combos : List Combo)
    (answer : Guess → Int × Int) (first : Option Guess) (turns : Nat) (head : List Guess)
    (turn_no : Nat) (tries : List Guess) (guess : Guess) (head2 : List Guess) (turn_no2 : Nat)
    (h : mainTurn stale combos answer first head turn_no = Turn.next guess head2 turn_no2) :
    mainLoop stale combos answer first (turns + 1) head turn_no tries =
      mainLoop stale combos answer first turns head2 turn_no2 (tries ++ [guess]) := by
  rw [mainLoop, h]

theorem mainLoop_null (stale : Guess → Guess) (combos : List Combo)
    (answer : Guess → Int × Int) (first : Option Guess) (turns : Nat) (head : List Guess)
    (turn_no : Nat) (tries : List Guess)
    (h : mainTurn stale combos answer first head turn_no = Turn.nullGuess) :
    mainLoop stale combos answer first (turns + 1) head turn_no tries =
      Session.nullGuess tries := by
  rw [mainLoop, h]

theorem main_returns (stale : Guess → Guess) (answer : Guess → Int × Int) (turns : Nat) :
    main true stale answer turns =
      mainLoop stale (initPegCombos PEG_COMBOS) answer
        (initialCandidates.find? (fun i => decide (i.code = [0, 0, 1, 1]))) turns
        initialCandidates 1 [] := rfl

theorem first_turn (stale : Guess → Guess) (answer : Guess → Int × Int)
    (hr : intInputAccepts 0 INT_MAX (answer ⟨[0, 0, 1, 1], rfl⟩).1 = true)
    (hw : intInputAccepts 0 INT_MAX (answer ⟨[0, 0, 1, 1], rfl⟩).2 = true)
    (hred : toUnsignedShort (answer ⟨[0, 0, 1, 1], rfl⟩).1 ≠ 4) :
    mainTurn stale (initPegCombos PEG_COMBOS) answer
      (initialCandidates.find? (fun i => decide (i.code = [0, 0, 1, 1]))) initialCandidates 1 =
      Turn.next ⟨[0, 0, 1, 1], rfl⟩
        (deduceByRedAndWhite (stale ⟨[0, 0, 1, 1], rfl⟩) ⟨[0, 0, 1, 1], rfl⟩
          (toUnsignedShort (answer ⟨[0, 0, 1, 1], rfl⟩).1)
          (toUnsignedShort (answer ⟨[0, 0, 1, 1], rfl⟩).2) GuessRef.inList
          initialCandidates).list 2 :=
  mainTurn_next stale _ answer _ initialCandidates 1 ⟨[0, 0, 1, 1], rfl⟩
    (by rw [if_pos rfl]; exact find_first_guess) hr hw hred

/-! ## The claims -/

/-- Claim C1, evaluated on the code: with the secret `{1,1,1,1}` and every
answer simulated from it, `main` does not end on a guess equal to the secret.
When the `delete` of line 57, applied to a local array, does not return, no
guess is emitted at all.  When it returns, the honest answer `(2, 0)` to the
opening guess makes the scan free the node that `guess` refers to and read
its code 1288 more times, whatever the freed block holds; with the freed
code reading as `linkBits` the scan removes the secret, the second guess
`{0,0,0,0}` is answered `(0, 0)`, its scan empties the list, and the third
turn dereferences the null pointer that `maximinningGuess` returns: no
answer ever has red `4`, however many turns are allowed. -/
theorem main_loses_secret :
    (∀ (stale : Guess → Guess) (answer : Guess → Int × Int) (turns : Nat),
      main false stale answer turns = Session.invalidDelete) ∧
    honest ⟨[1, 1, 1, 1], rfl⟩ ⟨[0, 0, 1, 1], rfl⟩ = (2, 0) ∧
    honest ⟨[1, 1, 1, 1], rfl⟩ ⟨[0, 0, 0, 0], rfl⟩ = (0, 0) ∧
    (∀ stale : Guess,
      (deduceByRedAndWhite stale ⟨[0, 0, 1, 1], rfl⟩ 2 0 GuessRef.inList
        (prepareGuesses [] generatePasswords)).freedReads = 1288) ∧
    (⟨[1, 1, 1, 1], rfl⟩ : Guess) ∉
      (deduceByRedAndWhite linkBits ⟨[0, 0, 1, 1], rfl⟩ 2 0 GuessRef.inList
        (prepareGuesses [] generatePasswords)).list ∧
    (∀ turns : Nat,
      main true (fun _ => linkBits) (honest ⟨[1, 1, 1, 1], rfl⟩) (turns + 3) =
        Session.nullGuess [⟨[0, 0, 1, 1], rfl⟩, ⟨[0, 0, 0, 0], rfl⟩]) := by
  have hfree : ∀ stale : Guess,
      (deduceByRedAndWhite stale ⟨[0, 0, 1, 1], rfl⟩ 2 0 GuessRef.inList
        (prepareGuesses [] generatePasswords)).freedReads = 1288 := by
    intro stale
    have h := (full_scan_reads_freed stale 2 0 (by decide)).2
    rw [initialCandidates] at h
    exact h
  have hscan := scan_two_red
  have hmem : (⟨[1, 1, 1, 1], rfl⟩ : Guess) ∉
      (deduceByRedAndWhite linkBits ⟨[0, 0, 1, 1], rfl⟩ 2 0 GuessRef.inList
        (prepareGuesses [] generatePasswords)).list := by
    rw [initialCandidates] at hscan
    rw [hscan]
    decide
  refine ⟨fun _ _ _ => rfl, by decide, by decide, hfree, hmem, ?_⟩
  intro turns
  have h1 := first_turn (fun _ => linkBits) (honest ⟨[1, 1, 1, 1], rfl⟩)
    (by decide) (by decide) (by decide)
  have e1 : toUnsignedShort (honest ⟨[1, 1, 1, 1], rfl⟩ ⟨[0, 0, 1, 1], rfl⟩).1 = 2 := by decide
  have e2 : toUnsignedShort (honest ⟨[1, 1, 1, 1], rfl⟩ ⟨[0, 0, 1, 1], rfl⟩).2 = 0 := by decide
  rw [e1, e2, scan_two_red] at h1
  have h2 := mainTurn_next (fun _ => linkBits) (initPegCombos PEG_COMBOS)
    (honest ⟨[1, 1, 1, 1], rfl⟩)
    (initialCandidates.find? (fun i => decide (i.code = [0, 0, 1, 1])))
    [⟨[0, 0, 0, 0], rfl⟩, ⟨[0, 0, 0, 2], rfl⟩, ⟨[0, 0, 0, 3], rfl⟩, ⟨[0, 0, 0, 4], rfl⟩,
      ⟨[0, 0, 0, 5], rfl⟩] 2 ⟨[0, 0, 0, 0], rfl⟩
    (by rw [if_neg (by decide)]; decide) (by decide) (by decide) (by decide)
  have e3 : (deduceByRedAndWhite linkBits ⟨[0, 0, 0, 0], rfl⟩
      (toUnsignedShort (honest ⟨[1, 1, 1, 1], rfl⟩ ⟨[0, 0, 0, 0], rfl⟩).1)
      (toUnsignedShort (honest ⟨[1, 1, 1, 1], rfl⟩ ⟨[0, 0, 0, 0], rfl⟩).2) GuessRef.inList
      [⟨[0, 0, 0, 0], rfl⟩, ⟨[0, 0, 0, 2], rfl⟩, ⟨[0, 0, 0, 3], rfl⟩, ⟨[0, 0, 0, 4], rfl⟩,
        ⟨[0, 0, 0, 5], rfl⟩]).list = [] := by decide
  rw [e3] at h2
  have h3 := mainTurn_nil (fun _ => linkBits) (initPegCombos PEG_COMBOS)
    (honest ⟨[1, 1, 1, 1], rfl⟩)
    (initialCandidates.find? (fun i => decide (i.code = [0, 0, 1, 1]))) 3 (by decide)
  have e4 : (2 + 1) % 65536 = 3 := rfl
  rw [e4] at h2
  rw [main_returns, mainLoop_next _ _ _ _ (turns + 2) _ _ _ _ _ _ h1,
    mainLoop_next _ _ _ _ (turns + 1) _ _ _ _ _ _ h2, mainLoop_null _ _ _ _ turns _ _ _ h3]
  rfl

/-- Claim C2: for codes `g` and `c` over the symbols below `n` (the Code
Space has `n = 6`), the white pegs of `simulateWhitePegs g c` are the sum over
every symbol `s` of the smaller of the two occurrence counts of `s`, minus
the red pegs of `simulateRedPegs g c`. -/
theorem simulateWhitePegs_eq_intersection_minus_red (g c : Guess) (n : Nat)
    (hg : ∀ s ∈ g.code, s < n) :
    simulateWhitePegs g c =
      (∑ s ∈ Finset.range n, min (g.code.count s) (c.code.count s)) - simulateRedPegs g c := by
  have h := white_add_red g c
  have hs : ∑ s ∈ Finset.range n, min (g.code.count s) (c.code.count s) =
      Multiset.card ((g.code : Multiset Nat) ∩ (c.code : Multiset Nat)) := by
    rw [← sum_range_count _ n]
    · apply Finset.sum_congr rfl
      intro s _
      rw [Multiset.count_inter, Multiset.coe_count, Multiset.coe_count]
    · intro s hs
      exact hg s (by simpa using (Multiset.mem_inter.mp hs).1)
  rw [hs, ← h]
  omega

theorem simulateWhitePegs_eq_intersection_minus_red_witness :
    simulateWhitePegs ⟨[0, 0, 1, 1], rfl⟩ ⟨[1, 1, 0, 2], rfl⟩ =
      (∑ s ∈ Finset.range 6, min ([0, 0, 1, 1].count s) ([1, 1, 0, 2].count s)) -
        simulateRedPegs ⟨[0, 0, 1, 1], rfl⟩ ⟨[1, 1, 0, 2], rfl⟩ :=
  simulateWhitePegs_eq_intersection_minus_red ⟨[0, 0, 1, 1], rfl⟩ ⟨[1, 1, 0, 2], rfl⟩ 6
    (by decide)

/-- Claim C3: for all codes `g` and `c`, red pegs plus white pegs are at
most 4. -/
theorem red_add_white_le_four (g c : Guess) :
    simulateRedPegs g c + simulateWhitePegs g c ≤ 4 := by
  have h := white_add_red g c
  have h2 : Multiset.card ((g.code : Multiset Nat) ∩ (c.code : Multiset Nat)) ≤
      Multiset.card (g.code : Multiset Nat) := Multiset.card_le_card (Multiset.inter_le_left _ _)
  rw [Multiset.coe_card, g.size_eq] at h2
  omega

/-- Claim C4: the feedback simulator is symmetric in its two codes, for the
red pegs and for the white pegs. -/
theorem simulate_symmetric (g c : Guess) :
    simulateRedPegs g c = simulateRedPegs c g ∧
      simulateWhitePegs g c = simulateWhitePegs c g := by
  have h1 := white_add_red g c
  have h2 := white_add_red c g
  have h3 := red_comm g c
  rw [Multiset.inter_comm] at h2
  exact ⟨h3, by omega⟩

/-- Claim C5: a code simulated against itself gives 4 red pegs and 0 white
pegs. -/
theorem simulate_self (g : Guess) :
    simulateRedPegs g g = 4 ∧ simulateWhitePegs g g = 0 := by
  have h1 := white_add_red g g
  have h2 := red_self g
  have h3 : Multiset.card ((g.code : Multiset Nat) ∩ (g.code : Multiset Nat)) ≤
      Multiset.card (g.code : Multiset Nat) := Multiset.card_le_card (Multiset.inter_le_left _ _)
  rw [Multiset.coe_card, g.size_eq] at h3
  exact ⟨h2, by omega⟩

/-- Claim C6: the list built by `prepareGuesses(head, generatePasswords())`
has exactly 1296 entries, no two of them with equal codes, every entry is a
length-4 code with all symbols in `0..5`, and every length-4 code over
`0..5` is the code of an entry. -/
theorem initial_candidates_enumerate_code_space :
    (prepareGuesses [] generatePasswords).length = 1296 ∧
    ((prepareGuesses [] generatePasswords).map (fun g => g.code)).Nodup ∧
    (∀ g ∈ prepareGuesses [] generatePasswords, g.code.length = 4 ∧ ∀ s ∈ g.code, s < 6) ∧
    (∀ w : List Nat, w.length = 4 → (∀ s ∈ w, s < 6) →
      ∃ g ∈ prepareGuesses [] generatePasswords, g.code = w) := by
  refine ⟨length_initialCandidates, nodup_initialCandidates_codes, ?_, ?_⟩
  · intro g hg
    exact ⟨g.size_eq, (mem_initialCandidates g).mp hg⟩
  · intro w hw hs
    exact ⟨⟨w, hw⟩, (mem_initialCandidates ⟨w, hw⟩).mpr hs, rfl⟩

theorem initial_candidates_enumerate_code_space_witness :
    ∃ g ∈ prepareGuesses [] generatePasswords, g.code = [5, 0, 3, 5] :=
  initial_candidates_enumerate_code_space.2.2.2 [5, 0, 3, 5] rfl (by decide)

/-- Claim C7, evaluated on the code: after `initPegCombos(PEG_COMBOS)` the
global table still holds 15 copies of `(0, 0)`, so its entries are not
pairwise distinct and the pair `(1, 0)` is missing, while the callee's own
copy holds the 15 feedback classes. -/
theorem peg_combos_after_init :
    initPegCombos PEG_COMBOS = List.replicate 15 (0, 0) ∧
    ¬ (initPegCombos PEG_COMBOS).Nodup ∧
    (1, 0) ∉ initPegCombos PEG_COMBOS ∧
    (initPegCombosBody PEG_COMBOS).combos = feedbackClasses := by
  decide

/-- Claim C8, evaluated on the code: the scan is the exact filter when
`guess` refers to an object outside the list, but `main`, the only caller,
passes a node of the list.  On the full list with its node `{0,0,1,1}` and
the feedback `(3, 0)` the scan frees that node and then reads its code 1288
times, whatever the freed block holds; with the freed code reading as
`linkBits` it leaves only `{0,0,0,1}` and `{0,0,1,0}`, so `{0,0,1,2}`, which
is in the list and scores `(3, 0)` against the guess, is removed. -/
theorem aliased_deduction_is_not_exact :
    (∀ (stale : Guess) (S : List Guess) (g : Guess) (red white : Nat) (c : Guess),
      c ∈ (deduceByRedAndWhite stale g red white GuessRef.outside S).list ↔
        c ∈ S ∧ simulateRedPegs g c = red ∧ simulateWhitePegs g c = white) ∧
    (∀ stale : Guess,
      (deduceByRedAndWhite stale ⟨[0, 0, 1, 1], rfl⟩ 3 0 GuessRef.inList
        (prepareGuesses [] generatePasswords)).ref = GuessRef.freed ∧
      (deduceByRedAndWhite stale ⟨[0, 0, 1, 1], rfl⟩ 3 0 GuessRef.inList
        (prepareGuesses [] generatePasswords)).freedReads = 1288) ∧
    (deduceByRedAndWhite linkBits ⟨[0, 0, 1, 1], rfl⟩ 3 0 GuessRef.inList
      (prepareGuesses [] generatePasswords)).list =
      [⟨[0, 0, 0, 1], rfl⟩, ⟨[0, 0, 1, 0], rfl⟩] ∧
    (⟨[0, 0, 1, 2], rfl⟩ : Guess) ∈ prepareGuesses [] generatePasswords ∧
    simulateRedPegs ⟨[0, 0, 1, 1], rfl⟩ ⟨[0, 0, 1, 2], rfl⟩ = 3 ∧
    simulateWhitePegs ⟨[0, 0, 1, 1], rfl⟩ ⟨[0, 0, 1, 2], rfl⟩ = 0 ∧
    (⟨[0, 0, 1, 2], rfl⟩ : Guess) ∉
      (deduceByRedAndWhite linkBits ⟨[0, 0, 1, 1], rfl⟩ 3 0 GuessRef.inList
        (prepareGuesses [] generatePasswords)).list := by
  have h := scan_three_red
  have hfree := fun stale : Guess => full_scan_reads_freed stale 3 0 (by decide)
  rw [initialCandidates] at h hfree
  rw [h]
  exact ⟨fun stale S g red white c => mem_scan_outside stale S g red white c, hfree, rfl,
    (mem_initialCandidates _).mpr (by decide), by decide, by decide, by decide⟩

/-- Claim C9, evaluated on the code: the Deduction Steps of `main` pass the
node of the guess, which the scan frees.  With the freed code reading as
`linkBits`, the step for the opening guess `{0,0,1,1}` and the feedback
`(2, 0)` leaves five codes of the full list and removes the secret
`{1,1,1,1}`, although `(2, 0)` is the feedback simulated from that secret;
and the step for the feedback `(0, 0)` keeps `{1,1,1,1}`, which is not
consistent with `(0, 0)`. -/
theorem aliased_step_removes_the_secret :
    (⟨[1, 1, 1, 1], rfl⟩ : Guess) ∈ prepareGuesses [] generatePasswords ∧
    simulateRedPegs ⟨[0, 0, 1, 1], rfl⟩ ⟨[1, 1, 1, 1], rfl⟩ = 2 ∧
    simulateWhitePegs ⟨[0, 0, 1, 1], rfl⟩ ⟨[1, 1, 1, 1], rfl⟩ = 0 ∧
    (deduceByRedAndWhite linkBits ⟨[0, 0, 1, 1], rfl⟩ 2 0 GuessRef.inList
      (prepareGuesses [] generatePasswords)).list =
      [⟨[0, 0, 0, 0], rfl⟩, ⟨[0, 0, 0, 2], rfl⟩, ⟨[0, 0, 0, 3], rfl⟩, ⟨[0, 0, 0, 4], rfl⟩,
        ⟨[0, 0, 0, 5], rfl⟩] ∧
    (⟨[1, 1, 1, 1], rfl⟩ : Guess) ∉
      (deduceByRedAndWhite linkBits ⟨[0, 0, 1, 1], rfl⟩ 2 0 GuessRef.inList
        (prepareGuesses [] generatePasswords)).list ∧
    (⟨[1, 1, 1, 1], rfl⟩ : Guess) ∈
      (deduceByRedAndWhite linkBits ⟨[0, 0, 1, 1], rfl⟩ 0 0 GuessRef.inList
        (prepareGuesses [] generatePasswords)).list := by
  have h := scan_two_red
  have h0 := scan_no_pegs.2
  rw [initialCandidates] at h h0
  rw [h]
  exact ⟨(mem_initialCandidates _).mpr (by decide), by decide, by decide, rfl, by decide, h0⟩

set_option maxRecDepth 100000 in
/-- Claim C10, evaluated on the code: on the 20 codes that score `(3, 0)`
against the opening guess (what the scan leaves of the full list for a guess
object outside of it), `maximinningGuess` with the table `main` leaves in
`PEG_COMBOS` returns `{0,0,0,1}`, whose minimum of `hits` over the 15
feedback classes is 10, although the candidate `{0,0,1,2}` has minimum 12. -/
theorem maximinningGuess_misses_maximin :
    (∀ stale : Guess,
      (deduceByRedAndWhite stale ⟨[0, 0, 1, 1], rfl⟩ 3 0 GuessRef.outside
        (prepareGuesses [] generatePasswords)).list = afterThreeRed) ∧
    maximinningGuess (initPegCombos PEG_COMBOS) afterThreeRed = some ⟨[0, 0, 0, 1], rfl⟩ ∧
    specWorst afterThreeRed ⟨[0, 0, 0, 1], rfl⟩ = 10 ∧
    (⟨[0, 0, 1, 2], rfl⟩ : Guess) ∈ afterThreeRed ∧
    specWorst afterThreeRed ⟨[0, 0, 1, 2], rfl⟩ = 12 := by
  refine ⟨afterThreeRed_eq, ?_, ?_, ?_, ?_⟩ <;> decide

/-- Claim C11: for every non-empty candidate list `S`, whatever the table,
`maximinningGuess` returns a node and not the null pointer, and that node is
an element of `S`; so it belongs to the full candidate list of `main`
whenever every element of `S` does, and it is the single element of `S` when
`S` has exactly one. -/
theorem maximinningGuess_total (combos : List Combo) (S : List Guess) (h : S ≠ []) :
    ∃ g, maximinningGuess combos S = some g ∧ g ∈ S ∧
      ((∀ c ∈ S, c ∈ prepareGuesses [] generatePasswords) →
        g ∈ prepareGuesses [] generatePasswords) ∧
      (∀ a, S = [a] → g = a) := by
  obtain ⟨g, hg, hs⟩ := maximinningGuess_mem combos S h
  refine ⟨g, hs, hg, fun hsub => hsub g hg, ?_⟩
  intro a ha
  subst ha
  simpa using hg

theorem maximinningGuess_total_witness :
    ∃ g, maximinningGuess (initPegCombos PEG_COMBOS) [⟨[2, 3, 4, 5], rfl⟩] = some g ∧
      g ∈ [(⟨[2, 3, 4, 5], rfl⟩ : Guess)] ∧
      ((∀ c ∈ [(⟨[2, 3, 4, 5], rfl⟩ : Guess)], c ∈ prepareGuesses [] generatePasswords) →
        g ∈ prepareGuesses [] generatePasswords) ∧
      (∀ a, [(⟨[2, 3, 4, 5], rfl⟩ : Guess)] = [a] → g = a) :=
  maximinningGuess_total (initPegCombos PEG_COMBOS) [⟨[2, 3, 4, 5], rfl⟩] (by decide)

/-- Claim C13 fails on the code: the answer `(3, 2)` to the opening guess,
whose sum is 5, passes both guards of `intInput`, no validation failure is
reported, and the pass goes through the Deduction Step to line 77 with the
candidate list empty, whereas it had 1296 entries before. -/
theorem malformed_feedback_not_rejected :
    intInputAccepts 0 INT_MAX 3 = true ∧ intInputAccepts 0 INT_MAX 2 = true ∧
    (prepareGuesses [] generatePasswords).length = 1296 ∧
    mainTurn (fun _ => linkBits) (initPegCombos PEG_COMBOS) (fun _ => (3, 2))
      ((prepareGuesses [] generatePasswords).find? (fun i => i.code = [0, 0, 1, 1]))
      (prepareGuesses [] generatePasswords) 1 = Turn.next ⟨[0, 0, 1, 1], rfl⟩ [] 2 := by
  have h1 := first_turn (fun _ => linkBits) (fun _ => (3, 2)) (by decide) (by decide)
    (by decide)
  have e1 : toUnsignedShort ((fun _ => ((3 : Int), (2 : Int))) (⟨[0, 0, 1, 1], rfl⟩ : Guess)).1
      = 3 := by decide
  have e2 : toUnsignedShort ((fun _ => ((3 : Int), (2 : Int))) (⟨[0, 0, 1, 1], rfl⟩ : Guess)).2
      = 2 := by decide
  rw [e1, e2, scan_malformed _ _ 3 2 (by decide)] at h1
  exact ⟨by decide, by decide, length_initialCandidates, h1⟩

/-- Claim C13, amended: in a pass of the loop of `main` whose guess is
answered with two numbers from `0` to `INT_MAX`, neither number is refused,
whatever their sum, and each is stored modulo `65536`.  When the stored red
count is 4 the loop ends.  Otherwise the Deduction Step runs with the stored
pair and the pass reaches line 77; when the stored pair has a sum above 4,
the step leaves the candidate list empty, whatever a freed node holds. -/
theorem malformed_feedback_empties (stale : Guess → Guess) (combos : List Combo)
    (answer : Guess → Int × Int) (first : Option Guess) (head : List Guess) (turn_no : Nat)
    (guess : Guess)
    (hsel : (if turn_no = 1 then first else maximinningGuess combos head) = some guess)
    (hr : 0 ≤ (answer guess).1 ∧ (answer guess).1 ≤ INT_MAX)
    (hw : 0 ≤ (answer guess).2 ∧ (answer guess).2 ≤ INT_MAX) :
    intInputAccepts 0 INT_MAX (answer guess).1 = true ∧
    intInputAccepts 0 INT_MAX (answer guess).2 = true ∧
    (toUnsignedShort (answer guess).1 = 4 →
      mainTurn stale combos answer first head turn_no = Turn.solved guess) ∧
    (toUnsignedShort (answer guess).1 ≠ 4 →
      mainTurn stale combos answer first head turn_no =
        Turn.next guess
          (deduceByRedAndWhite (stale guess) guess (toUnsignedShort (answer guess).1)
            (toUnsignedShort (answer guess).2) GuessRef.inList head).list
          ((turn_no + 1) % 65536)) ∧
    (toUnsignedShort (answer guess).1 ≠ 4 →
      toUnsignedShort (answer guess).1 + toUnsignedShort (answer guess).2 > 4 →
      mainTurn stale combos answer first head turn_no =
        Turn.next guess [] ((turn_no + 1) % 65536)) := by
  have ar := accepts_of_range _ hr.1 hr.2
  have aw := accepts_of_range _ hw.1 hw.2
  refine ⟨ar, aw,
    fun h4 => mainTurn_solved stale combos answer first head turn_no guess hsel ar h4,
    fun h4 => mainTurn_next stale combos answer first head turn_no guess hsel ar aw h4, ?_⟩
  intro h4 hsum
  rw [mainTurn_next stale combos answer first head turn_no guess hsel ar aw h4,
    scan_malformed _ _ _ _ hsum]

theorem malformed_feedback_empties_witness :
    mainTurn (fun _ => linkBits) (initPegCombos PEG_COMBOS) (fun _ => (65539, 2))
      (some ⟨[0, 0, 1, 1], rfl⟩) [⟨[0, 0, 1, 1], rfl⟩, ⟨[5, 5, 5, 5], rfl⟩] 1 =
      Turn.next ⟨[0, 0, 1, 1], rfl⟩ [] ((1 + 1) % 65536) :=
  (malformed_feedback_empties (fun _ => linkBits) (initPegCombos PEG_COMBOS)
    (fun _ => (65539, 2)) (some ⟨[0, 0, 1, 1], rfl⟩)
    [⟨[0, 0, 1, 1], rfl⟩, ⟨[5, 5, 5, 5], rfl⟩] 1 ⟨[0, 0, 1, 1], rfl⟩ rfl
    (by decide) (by decide)).2.2.2.2 (by decide) (by decide)

/-- Claim C14, evaluated on the code: `main` has no check for an empty
candidate list.  The answer `(3, 1)` to the opening guess, which no code
scores, makes the Deduction Step leave the list empty, whatever a freed node
holds; the loop goes on, and in the next pass `maximinningGuess` is invoked
on the empty list, where it returns its null pointer dereferenced. -/
theorem empty_candidates_reach_the_selector (stale : Guess → Guess) :
    mainTurn stale (initPegCombos PEG_COMBOS) (fun _ => (3, 1))
      ((prepareGuesses [] generatePasswords).find? (fun i => i.code = [0, 0, 1, 1]))
      (prepareGuesses [] generatePasswords) 1 = Turn.next ⟨[0, 0, 1, 1], rfl⟩ [] 2 ∧
    (∀ combos : List Combo, maximinningGuess combos [] = none) ∧
    main true stale (fun _ => (3, 1)) 1 = Session.running [⟨[0, 0, 1, 1], rfl⟩] ∧
    (∀ turns : Nat,
      main true stale (fun _ => (3, 1)) (turns + 2) =
        Session.nullGuess [⟨[0, 0, 1, 1], rfl⟩]) := by
  have h1 := first_turn stale (fun _ => (3, 1)) (by decide) (by decide) (by decide)
  have e1 : toUnsignedShort ((fun _ => ((3 : Int), (1 : Int))) (⟨[0, 0, 1, 1], rfl⟩ : Guess)).1
      = 3 := by decide
  have e2 : toUnsignedShort ((fun _ => ((3 : Int), (1 : Int))) (⟨[0, 0, 1, 1], rfl⟩ : Guess)).2
      = 1 := by decide
  rw [e1, e2, scan_impossible _ _ 3 1 (fun a b => no_three_red_one_white a b)] at h1
  have h2 := mainTurn_nil stale (initPegCombos PEG_COMBOS) (fun _ => (3, 1))
    (initialCandidates.find? (fun i => decide (i.code = [0, 0, 1, 1]))) 2 (by decide)
  refine ⟨h1, fun _ => rfl, ?_, ?_⟩
  · rw [main_returns, mainLoop_next _ _ _ _ 0 _ _ _ _ _ _ h1]
    rfl
  · intro turns
    rw [main_returns, mainLoop_next _ _ _ _ (turns + 1) _ _ _ _ _ _ h1,
      mainLoop_null _ _ _ _ turns _ _ _ h2]
    rfl

/-- Claim C15, evaluated on the code: the step that `main` runs for the
opening guess passes the node `{0,0,1,1}` of the full list.  With the
feedback `(0, 0)` the scan frees that node and reads its code 1288 more
times, whatever the freed block holds; with the freed code reading as
`linkBits` it leaves 625 candidates, not 256, among them `{1,1,1,1}`, whose
symbols are not in `{2,3,4,5}`.  For a guess object outside the list the
same scan leaves 256. -/
theorem aliased_opening_step_leaves_625 :
    (∀ stale : Guess,
      (deduceByRedAndWhite stale ⟨[0, 0, 1, 1], rfl⟩ 0 0 GuessRef.inList
        (prepareGuesses [] generatePasswords)).freedReads = 1288) ∧
    (deduceByRedAndWhite linkBits ⟨[0, 0, 1, 1], rfl⟩ 0 0 GuessRef.inList
      (prepareGuesses [] generatePasswords)).list.length = 625 ∧
    (⟨[1, 1, 1, 1], rfl⟩ : Guess) ∈
      (deduceByRedAndWhite linkBits ⟨[0, 0, 1, 1], rfl⟩ 0 0 GuessRef.inList
        (prepareGuesses [] generatePasswords)).list ∧
    (∀ stale : Guess,
      (deduceByRedAndWhite stale ⟨[0, 0, 1, 1], rfl⟩ 0 0 GuessRef.outside
        (prepareGuesses [] generatePasswords)).list.length = 256) := by
  have h := scan_no_pegs
  have hfree := fun stale : Guess => (full_scan_reads_freed stale 0 0 (by decide)).2
  have hlen := length_after_no_pegs
  rw [initialCandidates] at h hfree hlen
  exact ⟨hfree, h.1, h.2, hlen⟩

/-- Claim C17: for every non-empty candidate list of at most 1296 entries (a
Candidate Set holds distinct codes of the 1296-code space) and every
non-empty table, `maximinningGuess` returns the earliest element whose
minimum hit count over the table is the maximum over the list: every element
before it has a strictly smaller minimum hit count and no element of the
list has a larger one. -/
theorem maximinningGuess_first_of_the_best (combos : List Combo) (S : List Guess)
    (hc : combos ≠ []) (hS : S ≠ []) (hlen : S.length ≤ 1296) :
    ∃ pre g post, S = pre ++ g :: post ∧ maximinningGuess combos S = some g ∧
      (∀ x ∈ pre, tableMinHits combos S x < tableMinHits combos S g) ∧
      (∀ x ∈ S, tableMinHits combos S x ≤ tableMinHits combos S g) := by
  obtain ⟨pre, g, post, hsplit, hres, hpre, hpost⟩ := maximinningGuess_first_best combos S hS
  have hm : ∀ x, minHits combos S x = tableMinHits combos S x :=
    fun x => minHits_eq combos S x hc hlen
  simp only [hm] at hpre hpost
  refine ⟨pre, g, post, hsplit, hres, hpre, ?_⟩
  intro x hx
  rw [hsplit] at hx
  rcases List.mem_append.mp hx with h | h
  · exact le_of_lt (hpre x h)
  · rcases List.mem_cons.mp h with rfl | h
    · exact le_refl _
    · exact hpost x h

theorem maximinningGuess_first_of_the_best_witness :
    ∃ pre g post, afterThreeRed = pre ++ g :: post ∧
      maximinningGuess (initPegCombos PEG_COMBOS) afterThreeRed = some g ∧
      (∀ x ∈ pre, tableMinHits (initPegCombos PEG_COMBOS) afterThreeRed x <
        tableMinHits (initPegCombos PEG_COMBOS) afterThreeRed g) ∧
      (∀ x ∈ afterThreeRed, tableMinHits (initPegCombos PEG_COMBOS) afterThreeRed x ≤
        tableMinHits (initPegCombos PEG_COMBOS) afterThreeRed g) :=
  maximinningGuess_first_of_the_best (initPegCombos PEG_COMBOS) afterThreeRed
    (by decide) (by decide) (by decide)

/-- Claim C18: whatever `guess` refers to (an object outside the list, a node
of the list, a freed node) and whatever a freed node holds, the list left by
`deduceByRedAndWhite` is an order-preserving sub-list of `S`; so it is no
longer than `S`, and it has no two entries with equal codes when `S` has
none. -/
theorem deduce_only_removes (stale : Guess) (ref : GuessRef) (S : List Guess) (g : Guess)
    (red white : Nat) :
    List.Sublist (deduceByRedAndWhite stale g red white ref S).list S ∧
    (deduceByRedAndWhite stale g red white ref S).list.length ≤ S.length ∧
    ((S.map (fun c => c.code)).Nodup →
      ((deduceByRedAndWhite stale g red white ref S).list.map (fun c => c.code)).Nodup) := by
  have hsub := scan_sublist stale g red white S ref
  exact ⟨hsub, hsub.length_le, fun hn => hn.sublist (hsub.map _)⟩

theorem deduce_only_removes_witness :
    ((deduceByRedAndWhite linkBits ⟨[0, 0, 1, 1], rfl⟩ 0 0 GuessRef.inList
      [⟨[0, 0, 1, 1], rfl⟩, ⟨[0, 1, 2, 3], rfl⟩, ⟨[5, 5, 5, 5], rfl⟩]).list.map
      (fun c => c.code)).Nodup :=
  (deduce_only_removes linkBits GuessRef.inList
    [⟨[0, 0, 1, 1], rfl⟩, ⟨[0, 1, 2, 3], rfl⟩, ⟨[5, 5, 5, 5], rfl⟩] ⟨[0, 0, 1, 1], rfl⟩
    0 0).2.2 (by decide)

/-- Claim C19: when the code of the guess occurs in `S` and the red count of
the feedback is not 4, `deduceByRedAndWhite` leaves a list strictly shorter
than `S`, both when `guess` refers to an object outside the list and when it
refers to the node of the list with that code, whatever a freed node holds.
In the first case it removes every entry with the code of the guess; in the
second it removes the node referred to before any read of freed memory,
which is every entry with that code when `S` has no two entries with equal
codes. -/
theorem deduce_strict_progress (stale : Guess) (S : List Guess) (g : Guess) (red white : Nat)
    (hg : ∃ c ∈ S, c.code = g.code) (hred : red ≠ 4) :
    ((∀ c ∈ (deduceByRedAndWhite stale g red white GuessRef.outside S).list, c.code ≠ g.code) ∧
      (deduceByRedAndWhite stale g red white GuessRef.outside S).list.length < S.length) ∧
    (((S.map (fun c => c.code)).Nodup →
        ∀ c ∈ (deduceByRedAndWhite stale g red white GuessRef.inList S).list,
          c.code ≠ g.code) ∧
      (deduceByRedAndWhite stale g red white GuessRef.inList S).list.length < S.length) := by
  have hmem : g ∈ S := by
    obtain ⟨c, hc, hcode⟩ := hg
    exact guess_eq_of_code c g hcode ▸ hc
  refine ⟨⟨?_, scan_outside_length_lt stale S g red white hmem hred⟩,
    ⟨?_, scan_inList_length_lt stale g red white hred S hmem⟩⟩
  · intro c hc hcode
    have hcg := guess_eq_of_code c g hcode
    subst hcg
    have := ((mem_scan_outside stale S c red white c).mp hc).2.1
    rw [red_self] at this
    exact hred this.symm
  · intro hn c hc hcode
    have hcg := guess_eq_of_code c g hcode
    subst hcg
    exact scan_inList_not_mem stale c red white hred S (List.Nodup.of_map _ hn) hc

theorem deduce_strict_progress_witness :
    (∀ c ∈ (deduceByRedAndWhite linkBits ⟨[0, 0, 1, 1], rfl⟩ 0 0 GuessRef.outside
        [⟨[0, 0, 1, 1], rfl⟩, ⟨[5, 5, 5, 5], rfl⟩]).list, c.code ≠ [0, 0, 1, 1]) ∧
    (deduceByRedAndWhite linkBits ⟨[0, 0, 1, 1], rfl⟩ 0 0 GuessRef.outside
      [⟨[0, 0, 1, 1], rfl⟩, ⟨[5, 5, 5, 5], rfl⟩]).list.length < 2 ∧
    (∀ c ∈ (deduceByRedAndWhite linkBits ⟨[0, 0, 1, 1], rfl⟩ 0 0 GuessRef.inList
        [⟨[0, 0, 1, 1], rfl⟩, ⟨[5, 5, 5, 5], rfl⟩]).list, c.code ≠ [0, 0, 1, 1]) ∧
    (deduceByRedAndWhite linkBits ⟨[0, 0, 1, 1], rfl⟩ 0 0 GuessRef.inList
      [⟨[0, 0, 1, 1], rfl⟩, ⟨[5, 5, 5, 5], rfl⟩]).list.length < 2 :=
  have h := deduce_strict_progress linkBits [⟨[0, 0, 1, 1], rfl⟩, ⟨[5, 5, 5, 5], rfl⟩]
    ⟨[0, 0, 1, 1], rfl⟩ 0 0 ⟨⟨[0, 0, 1, 1], rfl⟩, by decide, rfl⟩ (by decide)
  ⟨h.1.1, h.1.2, h.2.1 (by decide), h.2.2⟩

/-- Claim C20: run on any array of 15 pairs, the loops of `initPegCombos`
write at the indices `0, 1, ..., 14`, each exactly once and in this order,
never at 15 or beyond, and leave the array
`(0,0),(0,1),...,(3,1),(4,0)`: exactly the pairs `(r, w)` with `r + w ≤ 4`,
in ascending order of `(r, w)`. -/
theorem initPegCombos_writes_in_bounds (combos : List Combo) (h : combos.length = 15) :
    (initPegCombosBody combos).writes = [0, 1, 2, 3, 4, 5, 6, 7, 8, 9, 10, 11, 12, 13, 14] ∧
    (initPegCombosBody combos).inBounds = true ∧
    (initPegCombosBody combos).combos =
      [(0, 0), (0, 1), (0, 2), (0, 3), (0, 4), (1, 0), (1, 1), (1, 2), (1, 3),
       (2, 0), (2, 1), (2, 2), (3, 0), (3, 1), (4, 0)] ∧
    (∀ r w : Nat, (r, w) ∈ (initPegCombosBody combos).combos ↔ r + w ≤ 4) ∧
    List.Pairwise (fun p q : Combo => p.1 < q.1 ∨ (p.1 = q.1 ∧ p.2 < q.2))
      (initPegCombosBody combos).combos := by
  match combos, h with
  | [a0, a1, a2, a3, a4, a5, a6, a7, a8, a9, a10, a11, a12, a13, a14], _ =>
    rw [initPegCombosBody_eq]
    refine ⟨rfl, rfl, rfl, ?_, by decide⟩
    intro r w
    constructor
    · intro hm
      simp at hm
      omega
    · intro hle
      have hr : r ≤ 4 := by omega
      have hw : w ≤ 4 := by omega
      interval_cases r <;> interval_cases w <;> simp at hle ⊢

theorem initPegCombos_writes_in_bounds_witness :
    (initPegCombosBody PEG_COMBOS).writes = [0, 1, 2, 3, 4, 5, 6, 7, 8, 9, 10, 11, 12, 13, 14] ∧
    (initPegCombosBody PEG_COMBOS).inBounds = true :=
  ⟨(initPegCombos_writes_in_bounds PEG_COMBOS (by decide)).1,
   (initPegCombos_writes_in_bounds PEG_COMBOS (by decide)).2.1⟩

end Mastermind
